import Mathlib

/-!
The pstate parser, table builder and selector of noupstate (`src/main.c`).

A shallow embedding of `main.c`.  C strings are lists of characters (the bytes
before the terminating NUL); `unsigned int` is a natural number below `2^32`,
`int` an integer in `[-2^31, 2^31)`, `long` and `unsigned long` are 64 bits wide
(LP64, the ABI of the Linux systems the tool is written for).  Signed overflow
and narrowing conversions wrap modulo `2^32` (two's complement).
-/

namespace Noupstate

/-! ## The C library functions the program calls -/

/-- The `isspace` predicate of the C locale: space, `\t`, `\n`, `\v`, `\f`, `\r`. -/
def isspace (c : Char) : Bool :=
  c.toNat = 32 || (9 ≤ c.toNat && c.toNat ≤ 13)

/-- The value of a character as a digit (`0-9`, `a-z`, `A-Z`), as `strtol` reads it. -/
def digitValue (c : Char) : Option Nat :=
  if 48 ≤ c.toNat ∧ c.toNat ≤ 57 then some (c.toNat - 48)
  else if 97 ≤ c.toNat ∧ c.toNat ≤ 122 then some (c.toNat - 97 + 10)
  else if 65 ≤ c.toNat ∧ c.toNat ≤ 90 then some (c.toNat - 65 + 10)
  else none

/-- Whether `c` is a digit of the given base. -/
def isDigitIn (base : Nat) (c : Char) : Bool :=
  match digitValue c with
  | some d => decide (d < base)
  | none => false

/-- The number denoted by a run of digits, most significant first. -/
def digitsValue (base : Nat) (ds : List Char) : Nat :=
  ds.foldl (fun acc c => acc * base + (digitValue c).getD 0) 0

/-- The subject sequence found by `strtol`/`strtoul`: sign, magnitude, and the
text after the last character used. -/
structure Scan where
  neg : Bool
  mag : Nat
  rest : List Char
deriving DecidableEq, Repr

/-- The optional sign of a number: whether it is a minus, and the text after it. -/
def skipSign (s : List Char) : Bool × List Char :=
  match s with
  | [] => (false, [])
  | c :: r => if c = '-' then (true, r) else if c = '+' then (false, r) else (false, c :: r)

/-- The optional prefix `0x`/`0X` of a number in base 16: the text after it,
when it is there. -/
def strip0x (base : Nat) (s : List Char) : Option (List Char) :=
  match s with
  | c :: x :: r => if base = 16 ∧ c = '0' ∧ (x = 'x' ∨ x = 'X') then some r else none
  | _ => none

/-- The scan shared by `strtol` and `strtoul`: skip white space, take an
optional sign, for base 16 an optional `0x`/`0X`, then the longest run of
digits.  `none` when no conversion can be performed.  A `0x` that no
hexadecimal digit follows is the number `0` followed by the text `x...`. -/
def scanNumber (base : Nat) (s : List Char) : Option Scan :=
  let signed := skipSign (s.dropWhile isspace)
  let stripped := strip0x base signed.2
  let s3 := stripped.getD signed.2
  let ds := s3.takeWhile (isDigitIn base)
  if ds.isEmpty then
    (if stripped.isSome then some ⟨signed.1, 0, signed.2.drop 1⟩ else none)
  else some ⟨signed.1, digitsValue base ds, s3.dropWhile (isDigitIn base)⟩

/-- The largest `unsigned long`. -/
def ULONG_MAX : Nat := 2 ^ 64 - 1

/-- The largest `long`. -/
def LONG_MAX : Int := 2 ^ 63 - 1

/-- The smallest `long`. -/
def LONG_MIN : Int := -(2 ^ 63)

/-- `strtoul(s, &end, base)`: the value and the end pointer.  Without a
conversion the value is 0 and the end pointer is `s`; on overflow the value is
`ULONG_MAX`; a minus sign negates modulo `2^64`. -/
def strtoul (s : List Char) (base : Nat) : Nat × List Char :=
  match scanNumber base s with
  | none => (0, s)
  | some r =>
    if r.mag > ULONG_MAX then (ULONG_MAX, r.rest)
    else if r.neg then ((2 ^ 64 - r.mag) % 2 ^ 64, r.rest)
    else (r.mag, r.rest)

/-- `strtol(s, &end, base)`: the value and the end pointer.  Without a
conversion the value is 0 and the end pointer is `s`; the value is clamped to
`[LONG_MIN, LONG_MAX]`. -/
def strtol (s : List Char) (base : Nat) : Int × List Char :=
  match scanNumber base s with
  | none => (0, s)
  | some r =>
    if r.neg then
      (if (r.mag : Int) > 2 ^ 63 then (LONG_MIN, r.rest) else (-(r.mag : Int), r.rest))
    else
      (if (r.mag : Int) > LONG_MAX then (LONG_MAX, r.rest) else ((r.mag : Int), r.rest))

/-- Conversion to `unsigned int`. -/
def toUInt (n : Nat) : Nat := n % 2 ^ 32

/-- Conversion to `int` (two's complement wrap). -/
def toInt (z : Int) : Int := (z + 2 ^ 31) % 2 ^ 32 - 2 ^ 31

/-- `strtok`: `s` is the text at the scan position (the argument, or the saved
pointer when the argument is `NULL`).  Skips leading delimiters; `none` when
nothing is left; otherwise the token and the new saved position (after the
delimiter that ended the token, which is overwritten with NUL). -/
def strtok (s : List Char) (delim : List Char) : Option (List Char × List Char) :=
  let s1 := s.dropWhile (fun c => delim.contains c)
  if s1.isEmpty then none
  else some (s1.takeWhile (fun c => !delim.contains c),
             (s1.dropWhile (fun c => !delim.contains c)).drop 1)

/-! ## `struct PStateInfo` and `parse_pstate` -/

/-- The `struct PStateInfo`: `unsigned int pstate` and three `int` clocks. -/
structure PStateInfo where
  pstate : Nat
  core_minclock : Int
  core_maxclock : Int
  mem_clock : Int
deriving DecidableEq, Repr

/-- The ways `parse_pstate` returns 1, by the message it logs. -/
inductive ParseError where
  | expected_more_tokens
  | expected_end_of_token
  | expected_clock_unit
  | unknown_clock_unit
  | out_of_fuel
deriving DecidableEq, Repr

/-- The string `core`. -/
def kwCore : List Char := ['c', 'o', 'r', 'e']

/-- The string `memory`. -/
def kwMemory : List Char := ['m', 'e', 'm', 'o', 'r', 'y']

/-- The string `GHz`. -/
def kwGHz : List Char := ['G', 'H', 'z']

/-- The string `MHz`. -/
def kwMHz : List Char := ['M', 'H', 'z']

/-- The delimiters of the `strtok` calls inside a section: space and newline. -/
def delimSpNl : List Char := [' ', '\n']

/-- The delimiter of the `strtok` call at the end of the loop body: space. -/
def delimSp : List Char := [' ']

/-- The `while (ptr != NULL)` loop of `parse_pstate`.  `ptr` is the current
token, `saved` the position `strtok` kept.  Every iteration consumes at least
one character of `saved`, so `fuel` above its length is never exhausted. -/
def parseLoop : Nat → Option (List Char) → List Char → PStateInfo →
    Except ParseError PStateInfo
  | 0, _, _, _ => .error .out_of_fuel
  | _ + 1, none, _, info => .ok info
  | fuel + 1, some tok, saved, info =>
    if tok = kwCore ∨ tok = kwMemory then
      match strtok saved delimSpNl with
      | none => .error .expected_more_tokens
      | some (t1, saved1) =>
        let r1 := strtol t1 10
        let minclock := toInt r1.1
        let r2 : Int × List Char :=
          match r1.2 with
          | c :: q => if c = '-' then ((toInt (strtol q 10).1), (strtol q 10).2)
                      else (minclock, r1.2)
          | [] => (minclock, r1.2)
        let maxclock := r2.1
        if r2.2 ≠ [] then .error .expected_end_of_token
        else
          match strtok saved1 delimSpNl with
          | none => .error .expected_clock_unit
          | some (u, saved2) =>
            if u ≠ kwGHz ∧ u ≠ kwMHz then .error .unknown_clock_unit
            else
              let maxclock1 := if u = kwGHz then toInt (maxclock * 1000) else maxclock
              let minclock1 := if u = kwGHz then toInt (minclock * 1000) else minclock
              let info1 : PStateInfo :=
                if tok = kwCore then
                  { info with core_minclock := minclock1, core_maxclock := maxclock1 }
                else { info with mem_clock := maxclock1 }
              match strtok saved2 delimSp with
              | none => parseLoop fuel none [] info1
              | some (t, saved3) => parseLoop fuel (some t) saved3 info1
    else
      match strtok saved delimSp with
      | none => parseLoop fuel none [] info
      | some (t, saved1) => parseLoop fuel (some t) saved1 info

/-- The function `parse_pstate`: `.ok` is return value 0 with the record
stored, `.error` is return value 1. -/
def parse_pstate (line : List Char) : Except ParseError PStateInfo :=
  let r := strtoul line 16
  let info : PStateInfo :=
    { pstate := toUInt r.1, core_minclock := -1, core_maxclock := -1, mem_clock := -1 }
  match strtok r.2 delimSpNl with
  | none => parseLoop (line.length + 1) none [] info
  | some (t, saved) => parseLoop (line.length + 1) (some t) saved info

/-- The end of the loop body of `parse_pstate`: `strtok(NULL, " ")` and the
next iteration. -/
def parseNext (fuel : Nat) (saved : List Char) (info : PStateInfo) :
    Except ParseError PStateInfo :=
  match strtok saved delimSp with
  | none => parseLoop fuel none [] info
  | some (t, s) => parseLoop fuel (some t) s info

/-! ## `struct PStates` and `read_pstates` -/

/-- The `struct PStates`: the records read (`pstates_len` is their number) and
the indices of the performance and the save-energy profile. -/
structure PStates where
  pstates : List PStateInfo
  perf : Nat
  enrgy : Nat
deriving DecidableEq, Repr

/-- The field `pstates_len`. -/
def PStates.pstates_len (t : PStates) : Nat := t.pstates.length

/-- The lines `getline` returns for a file with the given content: each line
with its terminating newline, the last one without when the file does not end
in a newline.  An empty rest is end of file. -/
def getlines : List Char → List (List Char)
  | [] => []
  | c :: cs =>
    if c = '\n' then [c] :: getlines cs
    else
      match getlines cs with
      | [] => [[c]]
      | l :: ls => (c :: l) :: ls

/-- The C string a buffer holds: the characters before the first NUL. -/
def cstr (buf : List Char) : List Char := buf.takeWhile (fun c => c.toNat ≠ 0)

/-- The initial capacity `pstates_allocated`. -/
def pstates_allocated : Nat := 8

/-- The ways `read_pstates` does not produce a table.  `buffer_overrun n`: a
line was read with `pstates_len >= pstates_allocated`; the code sets
`pstates_len` to `n` (1.5 times its value), shrinks the buffer to `n` bytes
with `realloc`, drops the returned pointer and goes on writing records past
the allocation (or returns 1 when `realloc` fails). -/
inductive ReadError where
  | buffer_overrun (pstates_len : Nat)
deriving DecidableEq, Repr

/-- The `while (getline ...)` loop of `read_pstates` over the lines still to
read; `acc` is the records stored so far. -/
def readLoop : List (List Char) → List PStateInfo → Except ReadError (List PStateInfo)
  | [], acc => .ok acc
  | line :: rest, acc =>
    if acc.length ≥ pstates_allocated then .error (.buffer_overrun (acc.length * 3 / 2))
    else
      match parse_pstate (cstr line) with
      | .ok info => readLoop rest (acc ++ [info])
      | .error _ => readLoop rest acc

/-- The record `pstates[i]`.  All reads of the classification loop are inside
the table; the value outside it is immaterial. -/
def entry (ps : List PStateInfo) (i : Nat) : PStateInfo :=
  ps.getD i ⟨0, 0, 0, 0⟩

/-- The body of the classification loop at index `i`; the state is
`(perf, enrgy)`. -/
def classifyStep (ps : List PStateInfo) (st : Nat × Nat) (i : Nat) : Nat × Nat :=
  if (entry ps i).pstate = 0xAC then st
  else if (entry ps i).core_maxclock ≥ (entry ps st.1).core_maxclock then (i, st.2)
  else if (entry ps i).core_maxclock < (entry ps st.2).core_maxclock then (st.1, i)
  else st

/-- The classification loop run over the indices below `n`, from
`perf = 0, enrgy = 0`. -/
def classifyUpTo (ps : List PStateInfo) (n : Nat) : Nat × Nat :=
  (List.range n).foldl (classifyStep ps) (0, 0)

/-- The classification pass of `read_pstates`: the table with `perf` and
`enrgy` computed. -/
def classify (ps : List PStateInfo) : PStates :=
  { pstates := ps, perf := (classifyUpTo ps ps.length).1,
    enrgy := (classifyUpTo ps ps.length).2 }

/-- The function `read_pstates` on the content of the pstate file (opening
the file and the first allocation are taken to succeed). -/
def read_pstates (blob : List Char) : Except ReadError PStates :=
  match readLoop (getlines blob) [] with
  | .ok ps => .ok (classify ps)
  | .error e => .error e

/-! ## `write_pstate` -/

/-- The output of the conversion `%02x`: lowercase hexadecimal, padded with
zeros to two digits. -/
def fmt02x (n : Nat) : List Char :=
  let ds := Nat.toDigits 16 n
  List.replicate (2 - ds.length) '0' ++ ds

/-- The bytes `write_pstate` passes to `write` once the file is open:
`snprintf` stores the digits and a terminating NUL in `pstate_str` and returns
the number of digits; `write` gets that number plus one bytes of the buffer. -/
def write_pstate (pstate : Nat) : List Char :=
  let pstate_str := fmt02x (pstate % 2 ^ 32) ++ [Char.ofNat 0]
  let pstate_str_len := (fmt02x (pstate % 2 ^ 32)).length
  pstate_str.take (pstate_str_len + 1)

/-! ## The selector: option `-p` and the `set` operation of `main` -/

/-- The `enum PStateType`. -/
inductive PStateType where
  | PT_NONE
  | PT_PROFILE_PERF
  | PT_PROFILE_ENRGY
  | PT_ID
  | PT_VALUE
deriving DecidableEq, Repr

/-- Conversion of an `int` to `unsigned int`. -/
def intToUInt (z : Int) : Nat := (z % 2 ^ 32).toNat

/-- The function `strprefix`. -/
def strprefix (pre : List Char) (str : List Char) : Bool :=
  str.take pre.length = pre

/-- The branch `case 'p'` of the option loop on the value `val`: the selection
type and `new_pstate`, or `none` where the program exits with
"unknown pstate type".  `new_pstate` starts at 0. -/
def parse_p_option (val : List Char) : Option (PStateType × Nat) :=
  if val = "performance".toList then some (.PT_PROFILE_PERF, 0)
  else if val = "save-energy".toList then some (.PT_PROFILE_ENRGY, 0)
  else if strprefix "id:".toList val then
    some (.PT_ID, intToUInt (toInt (strtol (val.drop 3) 10).1))
  else if strprefix "val:".toList val then
    some (.PT_VALUE, intToUInt (toInt (strtol (val.drop 4) 16).1))
  else none

/-- The loop of `main` that looks `new_pstate` up in the table. -/
def is_known_pstate (t : PStates) (new_pstate : Nat) : Bool :=
  t.pstates.any (fun e => e.pstate = new_pstate)

/-- How the `set` operation ends.  `write v`: `write_pstate` is called with
`v`.  `write_out_of_bounds i`: `pstates[i]` is read with `i` not below
`pstates_len` and whatever is found there is passed to `write_pstate`. -/
inductive SetResult where
  | exit_failure
  | write (pstate : Nat)
  | write_out_of_bounds (index : Nat)
deriving DecidableEq, Repr

/-- Reading `pstates[i].pstate` and calling `write_pstate` with it. -/
def writeEntry (t : PStates) (i : Nat) : SetResult :=
  match t.pstates.get? i with
  | some e => .write e.pstate
  | none => .write_out_of_bounds i

/-- The branch `case OP_SET` of `main`, on the table read, the selection type,
`new_pstate`, and the text waiting on standard input (`fgetc` takes its first
character, `scanf("%u")` reads an unsigned decimal like `strtoul`). -/
def op_set (t : PStates) (ty : PStateType) (new_pstate : Nat) (stdin : List Char) :
    SetResult :=
  match ty with
  | .PT_VALUE =>
    if is_known_pstate t new_pstate then .write new_pstate
    else
      match stdin with
      | c :: _ => if c ≠ 'y' ∧ c ≠ 'Y' then .exit_failure else .write new_pstate
      | [] => .exit_failure
  | .PT_NONE =>
    match scanNumber 10 stdin with
    | none => .exit_failure
    | some _ =>
      if toUInt (strtoul stdin 10).1 ≥ t.pstates_len then .exit_failure
      else writeEntry t (toUInt (strtoul stdin 10).1)
  | .PT_PROFILE_PERF => writeEntry t t.perf
  | .PT_PROFILE_ENRGY => writeEntry t t.enrgy
  | .PT_ID => writeEntry t new_pstate

/-- The program run as `set`, with the value of option `-p` when one is given
(without it the selection is interactive): read the table, stop when the read
fails or the table is empty, otherwise resolve the selection.  `none` stands
for a run whose table read overran its buffer. -/
def main_set (blob : List Char) (p_option : Option (List Char)) (stdin : List Char) :
    Option SetResult :=
  let parsed : Option (PStateType × Nat) :=
    match p_option with
    | none => some (.PT_NONE, 0)
    | some val => parse_p_option val
  match parsed with
  | none => some .exit_failure
  | some sel =>
    match read_pstates blob with
    | .error _ => none
    | .ok t => if t.pstates_len = 0 then some .exit_failure else some (op_set t sel.1 sel.2 stdin)

/-! ## The specification's encoding and the inputs of the scenarios -/

/-- The two-digit lowercase hexadecimal rendering of a byte, as the
specification writes it (`lower_hex2`). -/
def lower_hex2 (v : Nat) : List Char := [Nat.digitChar (v / 16), Nat.digitChar (v % 16)]

/-- The table of the first end-to-end scenario: pstates 07 and 0f. -/
def blobTwoStates : List Char :=
  "07: core 405 MHz memory 810 MHz\n0f: core 405-1240 MHz memory 810 MHz\n".toList

/-- A table whose first line is the reserved pstate, with the highest clock. -/
def blobReservedFirstHigh : List Char :=
  "ac: core 2000 MHz memory 810 MHz\n07: core 405 MHz memory 810 MHz\n".toList

/-- A table whose first line is the reserved pstate, with the lowest clock. -/
def blobReservedFirstLow : List Char :=
  "ac: core 100 MHz memory 810 MHz\n07: core 405 MHz memory 810 MHz\n".toList

/-- A table with a single line, the reserved pstate. -/
def blobOnlyReserved : List Char :=
  "ac: core 1240 MHz memory 810 MHz\n".toList

/-- A table of two lines that both carry the reserved pstate. -/
def blobTwoReserved : List Char :=
  "ac: core 405 MHz memory 810 MHz\nac: core 1240 MHz memory 810 MHz\n".toList

/-- The blob of the sixth scenario: a line of garbage between two states. -/
def blobGarbage : List Char :=
  "07: core 405 MHz memory 810 MHz\ngarbage line\n0f: core 1240 MHz memory 810 MHz\n".toList

/-- A pstate file of nine well-formed lines. -/
def blobNineStates : List Char :=
  ("01: core 100 MHz memory 810 MHz\n02: core 200 MHz memory 810 MHz\n" ++
   "03: core 300 MHz memory 810 MHz\n04: core 400 MHz memory 810 MHz\n" ++
   "05: core 500 MHz memory 810 MHz\n06: core 600 MHz memory 810 MHz\n" ++
   "07: core 700 MHz memory 810 MHz\n08: core 800 MHz memory 810 MHz\n" ++
   "09: core 900 MHz memory 810 MHz\n").toList

/-- A table whose first line is the reserved pstate and whose only other line
has the same clock. -/
def blobReservedFirstEqual : List Char :=
  "ac: core 810 MHz memory 810 MHz\n0f: core 810 MHz memory 810 MHz\n".toList

/-- Index `p` is the largest index of `ps` at which `core_maxclock` attains its
maximum. -/
def IsLastMax (ps : List PStateInfo) (p : Nat) : Prop :=
  p < ps.length ∧
  (∀ j, j < ps.length → (entry ps j).core_maxclock ≤ (entry ps p).core_maxclock) ∧
  (∀ j, j < ps.length → (entry ps j).core_maxclock = (entry ps p).core_maxclock → j ≤ p)

/-- Index `p` is the smallest index of `ps` at which `core_maxclock` attains its
minimum. -/
def IsFirstMin (ps : List PStateInfo) (p : Nat) : Prop :=
  p < ps.length ∧
  (∀ j, j < ps.length → (entry ps p).core_maxclock ≤ (entry ps j).core_maxclock) ∧
  (∀ j, j < ps.length → (entry ps j).core_maxclock = (entry ps p).core_maxclock → p ≤ j)

instance (ps : List PStateInfo) (p : Nat) : Decidable (IsLastMax ps p) := by
  unfold IsLastMax; infer_instance

instance (ps : List PStateInfo) (p : Nat) : Decidable (IsFirstMin ps p) := by
  unfold IsFirstMin; infer_instance

/-! ## `print_pstates` -/

/-- The output of the conversion `%zu`. -/
def fmtZu (n : Nat) : List Char := Nat.toDigits 10 n

/-- The output of the conversion `%d`. -/
def fmtD (z : Int) : List Char :=
  if z < 0 then '-' :: Nat.toDigits 10 z.natAbs else Nat.toDigits 10 z.toNat

/-- What `puts` writes: the string and a newline. -/
def puts (s : List Char) : List Char := s ++ ['\n']

/-- The output of one iteration of the loop of `print_pstates`: the `printf`
call and the `puts` call chosen by the chain of conditions. -/
def printEntry (t : PStates) (i : Nat) : List Char :=
  "[id:".toList ++ fmtZu i ++ "] val:".toList ++ fmt02x (entry t.pstates i).pstate ++
    ", core-clock ".toList ++ fmtD (entry t.pstates i).core_minclock ++ "-".toList ++
    fmtD (entry t.pstates i).core_maxclock ++ " MHz, memory-clock ".toList ++
    fmtD (entry t.pstates i).mem_clock ++ " MHz".toList ++
    (if i = t.perf then puts " (performance profile)".toList
     else if i = t.enrgy then puts " (save-energy profile)".toList
     else if (entry t.pstates i).pstate = 0xAC then puts " (DON'T USE!)".toList
     else puts [])

/-- The function `print_pstates`: what it writes to standard output. -/
def print_pstates (t : PStates) : List Char :=
  (List.range t.pstates_len).foldl (fun out i => out ++ printEntry t i) []

/-- The suffixes of the listing in the order of their precedence, each with
the condition under which it applies to line `i`. -/
def suffixRules (t : PStates) (i : Nat) : List (Bool × List Char) :=
  [(decide (i = t.perf), " (performance profile)".toList),
   (decide (i = t.enrgy), " (save-energy profile)".toList),
   (decide ((entry t.pstates i).pstate = 0xAC), " (DON'T USE!)".toList)]

/-- The suffix of line `i` as the specification gives it: the first rule that
applies, or nothing. -/
def specSuffix (t : PStates) (i : Nat) : List Char :=
  (((suffixRules t i).find? (fun r => r.1)).map (fun r => r.2)).getD []

/-- The rendering of a pstate in the listing, as amended: lowercase
hexadecimal, two digits for a value below 256 and as many as needed above. -/
def specHex (v : Nat) : List Char :=
  if v < 256 then lower_hex2 v else Nat.toDigits 16 v

/-- Line `i` of the listing as the specification gives it, with the pstate
rendered by `hex`. -/
def specLine (hex : Nat → List Char) (t : PStates) (i : Nat) : List Char :=
  "[id:".toList ++ (Nat.repr i).toList ++ "] val:".toList ++ hex (entry t.pstates i).pstate ++
    ", core-clock ".toList ++ (Int.repr (entry t.pstates i).core_minclock).toList ++
    "-".toList ++ (Int.repr (entry t.pstates i).core_maxclock).toList ++
    " MHz, memory-clock ".toList ++ (Int.repr (entry t.pstates i).mem_clock).toList ++
    " MHz".toList ++ specSuffix t i

/-- A table with a pstate of three hexadecimal digits. -/
def blobWidePstate : List Char :=
  "100: core 405 MHz memory 810 MHz\n".toList

/-- The table of the third scenario: 07 and the reserved pstate. -/
def blobReservedSecond : List Char :=
  "07: core 405 MHz memory 810 MHz\nac: core 1240 MHz memory 810 MHz\n".toList

/-- A pstate file of eight well-formed lines. -/
def blobEightStates : List Char :=
  ("01: core 100 MHz memory 810 MHz\n02: core 200 MHz memory 810 MHz\n" ++
   "03: core 300 MHz memory 810 MHz\n04: core 400 MHz memory 810 MHz\n" ++
   "05: core 500 MHz memory 810 MHz\n06: core 600 MHz memory 810 MHz\n" ++
   "07: core 700 MHz memory 810 MHz\n08: core 800 MHz memory 810 MHz\n").toList

/-- A ninth line whose unit token is written in the wrong case. -/
def lineBadUnit : List Char := "09: core 900 mhz\n".toList

/-! ## Theorems -/

/-! ### The classification loop -/

theorem classifyUpTo_succ (ps : List PStateInfo) (n : Nat) :
    classifyUpTo ps (n + 1) = classifyStep ps (classifyUpTo ps n) n := by
  simp [classifyUpTo, List.range_succ, List.foldl_append]

theorem entry_eq_get (ps : List PStateInfo) (i : Nat) (hi : i < ps.length) :
    entry ps i = ps.get ⟨i, hi⟩ := by
  simp [entry, List.getD_eq_getElem?_getD, List.getElem?_eq_getElem hi]

/-- Each of `perf` and `enrgy` is 0 or the index of a record that is not
reserved, at every stage of the loop. -/
theorem classifyUpTo_zero_or_free (ps : List PStateInfo) (n : Nat) :
    ((classifyUpTo ps n).1 = 0 ∨ (entry ps (classifyUpTo ps n).1).pstate ≠ 0xAC) ∧
    ((classifyUpTo ps n).2 = 0 ∨ (entry ps (classifyUpTo ps n).2).pstate ≠ 0xAC) := by
  induction n with
  | zero => simp [classifyUpTo]
  | succ n ih =>
    rw [classifyUpTo_succ]
    unfold classifyStep
    by_cases h1 : (entry ps n).pstate = 0xAC
    · simpa [h1] using ih
    · have hfree : (entry ps n).pstate ≠ 0xAC := h1
      simp only [h1, if_false]
      split_ifs
      · exact ⟨Or.inr hfree, ih.2⟩
      · exact ⟨ih.1, Or.inr hfree⟩
      · exact ih

/-- On a table whose records are all reserved the loop never moves `perf` or
`enrgy`. -/
theorem classifyUpTo_all_reserved (ps : List PStateInfo)
    (hall : ∀ e ∈ ps, e.pstate = 0xAC) (n : Nat) (hn : n ≤ ps.length) :
    classifyUpTo ps n = (0, 0) := by
  induction n with
  | zero => simp [classifyUpTo]
  | succ n ih =>
    have hlt : n < ps.length := hn
    rw [classifyUpTo_succ, ih (Nat.le_of_lt hlt)]
    have h1 : (entry ps n).pstate = 0xAC := by
      rw [entry_eq_get ps n hlt]
      exact hall _ (List.get_mem _ _ _)
    simp [classifyStep, h1]

/-! ### The parse loop -/

/-- The loop of `parse_pstate` never changes the field `pstate`. -/
theorem parseLoop_pstate (fuel : Nat) :
    ∀ (ptr : Option (List Char)) (saved : List Char) (info r : PStateInfo),
      parseLoop fuel ptr saved info = .ok r → r.pstate = info.pstate := by
  induction fuel with
  | zero => intro ptr saved info r h; simp [parseLoop] at h
  | succ n ih =>
    intro ptr saved info r h
    cases ptr with
    | none =>
      simp only [parseLoop] at h
      cases h; rfl
    | some tok =>
      simp only [parseLoop] at h
      split at h
      · split at h
        · cases h
        · split at h
          · cases h
          · split at h
            · cases h
            · split at h
              · cases h
              · split at h
                · have := ih _ _ _ _ h
                  rw [this]; split <;> rfl
                · have := ih _ _ _ _ h
                  rw [this]; split <;> rfl
      · split at h
        · exact ih _ _ _ _ h
        · exact ih _ _ _ _ h

/-! ### Scanning numbers and tokens -/

/-- The characters that are digits in a base up to 16. -/
theorem digit_range (base : Nat) (hb : base ≤ 16) (c : Char) (h : isDigitIn base c = true) :
    (48 ≤ c.toNat ∧ c.toNat ≤ 57) ∨ (97 ≤ c.toNat ∧ c.toNat ≤ 102) ∨
      (65 ≤ c.toNat ∧ c.toNat ≤ 70) := by
  unfold isDigitIn digitValue at h
  split_ifs at h with h1 h2 h3
  · exact Or.inl h1
  · have h' : c.toNat - 97 + 10 < base := by simpa using h
    omega
  · have h' : c.toNat - 65 + 10 < base := by simpa using h
    omega

theorem takeWhile_run (p : Char → Bool) (ds r : List Char)
    (hall : ∀ c ∈ ds, p c = true) (hr : ∀ c ∈ r.head?, p c = false) :
    (ds ++ r).takeWhile p = ds ∧ (ds ++ r).dropWhile p = r := by
  induction ds with
  | nil =>
    cases r with
    | nil => simp
    | cons x xs =>
      have hx : p x = false := hr x (by simp)
      simp [List.takeWhile, List.dropWhile, hx]
  | cons d ds ih =>
    have hd : p d = true := hall d (List.mem_cons_self _ _)
    have ih' := ih (fun c hc => hall c (List.mem_cons_of_mem _ hc))
    simp [List.takeWhile, List.dropWhile, hd, ih'.1, ih'.2]

/-- `strtok` on a text that starts with a token and a delimiter after it. -/
theorem strtok_token (tok : List Char) (d : Char) (rest delim : List Char)
    (hne : tok ≠ []) (htok : ∀ c ∈ tok, c ∉ delim) (hd : d ∈ delim) :
    strtok (tok ++ d :: rest) delim = some (tok, rest) := by
  have hrun := takeWhile_run (fun c => !delim.contains c) tok (d :: rest)
    (fun c hc => by simp [htok c hc]) (fun c hc => by simp at hc; subst hc; simp [hd])
  cases tok with
  | nil => exact absurd rfl hne
  | cons t ts =>
    have ht : t ∉ delim := htok t (List.mem_cons_self _ _)
    unfold strtok
    have hdrop : List.dropWhile (fun c => delim.contains c) (t :: ts ++ d :: rest) =
        t :: ts ++ d :: rest := by
      simp [List.dropWhile, ht]
    simp only [hdrop, hrun.1, hrun.2]
    simp

/-- `scanNumber` on a run of digits followed by a character that is not one. -/
theorem scanNumber_digits (base : Nat) (hb : base ≤ 16) (ds r : List Char)
    (hne : ds ≠ []) (hall : ∀ c ∈ ds, isDigitIn base c = true)
    (hr : ∀ c ∈ r.head?, isDigitIn base c = false ∧ c ≠ 'x' ∧ c ≠ 'X') :
    scanNumber base (ds ++ r) = some ⟨false, digitsValue base ds, r⟩ := by
  have hrun := takeWhile_run (isDigitIn base) ds r hall (fun c hc => (hr c hc).1)
  cases ds with
  | nil => exact absurd rfl hne
  | cons d ds =>
    have hd := digit_range base hb d (hall d (List.mem_cons_self _ _))
    have hsp : isspace d = false := by
      unfold isspace; simp; omega
    have hminus : d ≠ '-' := by
      rintro rfl; revert hd; decide
    have hplus : d ≠ '+' := by
      rintro rfl; revert hd; decide
    have hdrop : List.dropWhile isspace (d :: (ds ++ r)) = d :: (ds ++ r) := by
      simp [List.dropWhile, hsp]
    have hx : ∀ x rest, ds ++ r = x :: rest → ¬ (x = 'x' ∨ x = 'X') := by
      intro x rest hxr
      cases ds with
      | nil =>
        simp at hxr
        have := hr x (by simp [hxr])
        tauto
      | cons e es =>
        simp at hxr
        have he := digit_range base hb e (hall e (by simp))
        rw [hxr.1] at he
        rintro (rfl | rfl) <;> revert he <;> decide
    have hsign : skipSign (d :: (ds ++ r)) = (false, d :: (ds ++ r)) := by
      simp [skipSign, hminus, hplus]
    have hstrip : strip0x base (d :: (ds ++ r)) = none := by
      cases hdr : ds ++ r with
      | nil => simp [strip0x]
      | cons x rest =>
        have := hx x rest hdr
        simp [strip0x, this]
    have h1 := hrun.1
    have h2 := hrun.2
    rw [List.cons_append] at h1 h2
    show scanNumber base (d :: (ds ++ r)) = _
    unfold scanNumber
    simp only [hdrop, hsign, hstrip]
    simp [h1, h2]

/-- `strtoul` on a run of digits that fits `unsigned long`. -/
theorem strtoul_digits (base : Nat) (hb : base ≤ 16) (ds r : List Char)
    (hne : ds ≠ []) (hall : ∀ c ∈ ds, isDigitIn base c = true)
    (hr : ∀ c ∈ r.head?, isDigitIn base c = false ∧ c ≠ 'x' ∧ c ≠ 'X')
    (hv : digitsValue base ds ≤ ULONG_MAX) :
    strtoul (ds ++ r) base = (digitsValue base ds, r) := by
  unfold strtoul
  rw [scanNumber_digits base hb ds r hne hall hr]
  simp [Nat.not_lt.mpr hv]

/-- `strtol` on a run of digits whose value fits `int`. -/
theorem strtol_digits (base : Nat) (hb : base ≤ 16) (ds r : List Char)
    (hne : ds ≠ []) (hall : ∀ c ∈ ds, isDigitIn base c = true)
    (hr : ∀ c ∈ r.head?, isDigitIn base c = false ∧ c ≠ 'x' ∧ c ≠ 'X')
    (hv : digitsValue base ds < 2 ^ 31) :
    strtol (ds ++ r) base = ((digitsValue base ds : Int), r) := by
  unfold strtol
  rw [scanNumber_digits base hb ds r hne hall hr]
  have : ¬ ((digitsValue base ds : Int) > LONG_MAX) := by
    unfold LONG_MAX; omega
  simp [this]

theorem toInt_of_lt (n : Nat) (hn : n < 2 ^ 31) : toInt (n : Int) = (n : Int) := by
  unfold toInt
  omega

/-- A decimal digit is neither a space nor a newline nor a minus sign. -/
theorem digit_not_delim (c : Char) (h : isDigitIn 10 c = true) :
    c ∉ delimSpNl ∧ c ≠ '-' := by
  have h' := digit_range 10 (by decide) c h
  refine ⟨?_, ?_⟩
  · unfold delimSpNl
    simp only [List.mem_cons, List.mem_singleton, List.not_mem_nil, or_false, not_or]
    constructor <;> (rintro rfl; revert h'; decide)
  · rintro rfl; revert h'; decide

theorem parseLoop_other (n : Nat) (tok saved : List Char) (info : PStateInfo)
    (h1 : tok ≠ kwCore) (h2 : tok ≠ kwMemory) :
    parseLoop (n + 1) (some tok) saved info = parseNext n saved info := by
  simp only [parseLoop, parseNext, h1, h2, or_self, if_false]

/-- One iteration of the loop on a well-formed section in MHz. -/
theorem parseLoop_section (n : Nat) (tok saved clk s1 s2 p : List Char) (lo hi : Int)
    (info : PStateInfo) (htok : tok = kwCore ∨ tok = kwMemory)
    (h1 : strtok saved delimSpNl = some (clk, s1))
    (h2 : strtol clk 10 = (lo, p))
    (h3 : (p = [] ∧ hi = lo) ∨ ∃ q, p = '-' :: q ∧ strtol q 10 = (hi, []))
    (h4 : strtok s1 delimSpNl = some (kwMHz, s2)) :
    parseLoop (n + 1) (some tok) saved info =
      parseNext n s2
        (if tok = kwCore then
          { info with core_minclock := toInt lo, core_maxclock := toInt hi }
         else { info with mem_clock := toInt hi }) := by
  have hu : ¬ (kwMHz ≠ kwGHz ∧ kwMHz ≠ kwMHz) := by simp
  have hg : ¬ (kwMHz = kwGHz) := by decide
  rcases h3 with ⟨hp, hhi⟩ | ⟨q, hp, hq⟩
  · subst hp hhi
    simp only [parseLoop, parseNext, htok, if_true, h1, h2, h4, hu, hg, if_false, ne_eq,
      not_true_eq_false]
    simp
  · subst hp
    simp only [parseLoop, parseNext, htok, if_true, h1, h2, h4, hu, hg, if_false, ne_eq,
      not_true_eq_false, hq]
    simp

theorem parseNext_token (fuel : Nat) (tok rest : List Char) (info : PStateInfo)
    (hne : tok ≠ []) (htok : ∀ c ∈ tok, c ∉ delimSp) :
    parseNext fuel (tok ++ ' ' :: rest) info = parseLoop fuel (some tok) rest info := by
  unfold parseNext
  rw [strtok_token tok ' ' rest delimSp hne htok (by decide)]

theorem parseNext_nil (n : Nat) (info : PStateInfo) :
    parseNext (n + 1) [] info = .ok info := by
  simp [parseNext, strtok, parseLoop]

/-- The start of `parse_pstate` on a line `<hex id>:` followed by a delimiter. -/
theorem parse_header (h body : List Char) (d : Char) (hd : d ∈ delimSpNl)
    (hh : h ≠ []) (hhd : ∀ c ∈ h, isDigitIn 16 c = true) (hhv : digitsValue 16 h < 2 ^ 32) :
    parse_pstate (h ++ ':' :: d :: body) =
      parseNext (h ++ ':' :: d :: body).length body ⟨digitsValue 16 h, -1, -1, -1⟩ := by
  have hs : strtoul (h ++ ':' :: d :: body) 16 = (digitsValue 16 h, ':' :: d :: body) := by
    apply strtoul_digits 16 (by decide) h _ hh hhd
    · intro c hc
      simp only [List.head?_cons, Option.mem_def, Option.some.injEq] at hc
      subst hc
      decide
    · unfold ULONG_MAX; omega
  have ht : strtok (':' :: d :: body) delimSpNl = some ([':'], body) :=
    strtok_token [':'] d body delimSpNl (by simp) (by decide) hd
  unfold parse_pstate
  simp only [hs, ht, toUInt, Nat.mod_eq_of_lt hhv]
  exact parseLoop_other _ _ _ _ (by decide) (by decide)

/-- One iteration of the loop on a section `<a>-<b> MHz`. -/
theorem section_range (n : Nat) (kw a b rest : List Char) (d : Char) (info : PStateInfo)
    (hkw : kw = kwCore ∨ kw = kwMemory) (hd : d ∈ delimSpNl)
    (ha : a ≠ []) (had : ∀ c ∈ a, isDigitIn 10 c = true) (hav : digitsValue 10 a < 2 ^ 31)
    (hb : b ≠ []) (hbd : ∀ c ∈ b, isDigitIn 10 c = true) (hbv : digitsValue 10 b < 2 ^ 31) :
    parseLoop (n + 1) (some kw) ((a ++ '-' :: b) ++ ' ' :: (kwMHz ++ d :: rest)) info =
      parseNext n rest
        (if kw = kwCore then
          { info with core_minclock := (digitsValue 10 a : Int),
                      core_maxclock := (digitsValue 10 b : Int) }
         else { info with mem_clock := (digitsValue 10 b : Int) }) := by
  have h1 : strtok ((a ++ '-' :: b) ++ ' ' :: (kwMHz ++ d :: rest)) delimSpNl =
      some (a ++ '-' :: b, kwMHz ++ d :: rest) := by
    apply strtok_token _ ' ' _ delimSpNl (by simp) _ (by decide)
    intro c hc
    rcases List.mem_append.mp hc with hc | hc
    · exact (digit_not_delim c (had c hc)).1
    · rcases List.mem_cons.mp hc with rfl | hc
      · decide
      · exact (digit_not_delim c (hbd c hc)).1
  have h2 : strtol (a ++ '-' :: b) 10 = ((digitsValue 10 a : Int), '-' :: b) := by
    apply strtol_digits 10 (by decide) a _ ha had _ hav
    intro c hc
    simp only [List.head?_cons, Option.mem_def, Option.some.injEq] at hc
    subst hc
    decide
  have h3 : strtol b 10 = ((digitsValue 10 b : Int), []) := by
    have := strtol_digits 10 (by decide) b [] hb hbd (by simp) hbv
    simpa using this
  have h4 : strtok (kwMHz ++ d :: rest) delimSpNl = some (kwMHz, rest) :=
    strtok_token kwMHz d rest delimSpNl (by decide) (by decide) hd
  rw [parseLoop_section n kw _ _ _ rest _ _ _ info hkw h1 h2 (Or.inr ⟨b, rfl, h3⟩) h4,
    toInt_of_lt _ hav, toInt_of_lt _ hbv]

/-- One iteration of the loop on a section `<a> MHz`. -/
theorem section_single (n : Nat) (kw a rest : List Char) (d : Char) (info : PStateInfo)
    (hkw : kw = kwCore ∨ kw = kwMemory) (hd : d ∈ delimSpNl)
    (ha : a ≠ []) (had : ∀ c ∈ a, isDigitIn 10 c = true) (hav : digitsValue 10 a < 2 ^ 31) :
    parseLoop (n + 1) (some kw) (a ++ ' ' :: (kwMHz ++ d :: rest)) info =
      parseNext n rest
        (if kw = kwCore then
          { info with core_minclock := (digitsValue 10 a : Int),
                      core_maxclock := (digitsValue 10 a : Int) }
         else { info with mem_clock := (digitsValue 10 a : Int) }) := by
  have h1 : strtok (a ++ ' ' :: (kwMHz ++ d :: rest)) delimSpNl =
      some (a, kwMHz ++ d :: rest) :=
    strtok_token a ' ' _ delimSpNl ha (fun c hc => (digit_not_delim c (had c hc)).1)
      (by decide)
  have h2 : strtol a 10 = ((digitsValue 10 a : Int), []) := by
    have := strtol_digits 10 (by decide) a [] ha had (by simp) hav
    simpa using this
  have h4 : strtok (kwMHz ++ d :: rest) delimSpNl = some (kwMHz, rest) :=
    strtok_token kwMHz d rest delimSpNl (by decide) (by decide) hd
  rw [parseLoop_section n kw _ _ _ rest _ _ _ info hkw h1 h2 (Or.inl ⟨rfl, rfl⟩) h4,
    toInt_of_lt _ hav]

theorem line_length (h body : List Char) (c d : Char) (hh : h ≠ []) :
    ∃ n, (h ++ c :: d :: body).length = n + 3 := by
  cases h with
  | nil => exact absurd rfl hh
  | cons x xs => exact ⟨xs.length + body.length, by simp; omega⟩

/-! ### The loop of `parse_pstate` ends -/

theorem dropWhile_length_le (p : Char → Bool) (l : List Char) :
    (l.dropWhile p).length ≤ l.length :=
  (List.dropWhile_sublist p).length_le

/-- A successful `strtok` moves the saved position forward. -/
theorem strtok_length (s delim t r : List Char) (h : strtok s delim = some (t, r)) :
    r.length < s.length := by
  unfold strtok at h
  simp only at h
  have h1 := dropWhile_length_le (fun c => delim.contains c) s
  generalize List.dropWhile (fun c => delim.contains c) s = s1 at h h1
  have h2 := dropWhile_length_le (fun c => !delim.contains c) s1
  cases s1 with
  | nil => simp at h
  | cons x xs =>
    simp only [List.isEmpty_cons, Bool.false_eq_true, if_false, Option.some.injEq,
      Prod.mk.injEq] at h
    rw [← h.2, List.length_drop]
    simp only [List.length_cons] at h1 h2
    omega

theorem skipSign_length (s : List Char) : (skipSign s).2.length ≤ s.length := by
  unfold skipSign
  cases s with
  | nil => simp
  | cons c r => simp only; split_ifs <;> simp

theorem strip0x_length (base : Nat) (s r : List Char) (h : strip0x base s = some r) :
    r.length ≤ s.length := by
  unfold strip0x at h
  split at h
  · split_ifs at h
    cases h
    simp; omega
  · cases h

/-- The end pointer of a scan is inside the text scanned. -/
theorem scanNumber_length (base : Nat) (s : List Char) (r : Scan)
    (h : scanNumber base s = some r) : r.rest.length ≤ s.length := by
  have h1 := dropWhile_length_le isspace s
  have h2 := skipSign_length (s.dropWhile isspace)
  unfold scanNumber at h
  simp only at h
  generalize skipSign (s.dropWhile isspace) = sg at h h2
  have h3 : ((strip0x base sg.2).getD sg.2).length ≤ sg.2.length := by
    cases hst : strip0x base sg.2 with
    | none => simp
    | some q => simpa using strip0x_length base sg.2 q hst
  have h4 := dropWhile_length_le (isDigitIn base) ((strip0x base sg.2).getD sg.2)
  split_ifs at h
  · cases h
    simp only [List.length_drop]
    omega
  · cases h
    simp only
    omega

theorem strtoul_length (s : List Char) (base : Nat) :
    (strtoul s base).2.length ≤ s.length := by
  unfold strtoul
  cases h : scanNumber base s with
  | none => simp
  | some r =>
    have := scanNumber_length base s r h
    simp only
    split_ifs <;> simpa using this

/-- With fuel above the length of the text left, the loop of `parse_pstate`
ends by itself. -/
theorem parseLoop_fuel (fuel : Nat) :
    ∀ (ptr : Option (List Char)) (saved : List Char) (info : PStateInfo),
      (ptr = none → 0 < fuel) → (ptr ≠ none → saved.length + 2 ≤ fuel) →
      parseLoop fuel ptr saved info ≠ .error .out_of_fuel := by
  induction fuel with
  | zero =>
    intro ptr saved info h1 h2
    cases ptr with
    | none => exact absurd (h1 rfl) (by decide)
    | some t => have := h2 (by simp); omega
  | succ n ih =>
    intro ptr saved info h1 h2
    cases ptr with
    | none => simp [parseLoop]
    | some tok =>
      have hs : saved.length + 1 ≤ n := by have := h2 (by simp); omega
      simp only [parseLoop]
      split
      · split
        · simp
        · rename_i t1 saved1 hk1
          have l1 := strtok_length _ _ _ _ hk1
          split
          · simp
          · split
            · simp
            · rename_i u saved2 hk2
              have l2 := strtok_length _ _ _ _ hk2
              split
              · simp
              · split
                · exact ih _ _ _ (fun _ => by omega) (fun h => absurd rfl h)
                · rename_i t saved3 hk3
                  have l3 := strtok_length _ _ _ _ hk3
                  exact ih _ _ _ (fun h => by simp at h) (fun _ => by omega)
      · split
        · exact ih _ _ _ (fun _ => by omega) (fun h => absurd rfl h)
        · rename_i t saved1 hk1
          have l1 := strtok_length _ _ _ _ hk1
          exact ih _ _ _ (fun h => by simp at h) (fun _ => by omega)

/-- `parse_pstate` always returns: its result is a record or one of the four
errors of the code, never an exhausted loop. -/
theorem parse_pstate_returns (line : List Char) :
    parse_pstate line ≠ .error .out_of_fuel := by
  unfold parse_pstate
  simp only
  have hl := strtoul_length line 16
  split
  · exact parseLoop_fuel _ _ _ _ (fun _ => by omega) (fun h => absurd rfl h)
  · rename_i t saved hk
    have l1 := strtok_length _ _ _ _ hk
    exact parseLoop_fuel _ _ _ _ (fun h => by simp at h) (fun _ => by omega)

/-! ### The claims -/

/-- C1, as stated, fails: a hexadecimal id of nine digits does not fit the
`unsigned int` field; `100000000` (2^32) is stored as pstate 0. -/
theorem long_hex_id_wraps :
    parse_pstate "100000000: core 405-1240 MHz memory 810 MHz\n".toList =
      .ok ⟨0, 405, 1240, 810⟩ ∧
    digitsValue 16 "100000000".toList = 0x100000000 := by
  constructor <;> rfl

/-- C1, amended: for every hexadecimal id `h` whose value is below 2^32 and
all decimals `a`, `b`, `m` below 2^31, `parse_pstate` succeeds on the line
`<h>: core <a>-<b> MHz memory <m> MHz` with the record (h, a, b, m); with a
single clock `core <a> MHz` both core clocks are `a`; and a section that is
absent leaves its fields at -1. -/
theorem parse_pstate_line (h a b m : List Char)
    (hh : h ≠ []) (hhd : ∀ c ∈ h, isDigitIn 16 c = true) (hhv : digitsValue 16 h < 2 ^ 32)
    (ha : a ≠ []) (had : ∀ c ∈ a, isDigitIn 10 c = true) (hav : digitsValue 10 a < 2 ^ 31)
    (hb : b ≠ []) (hbd : ∀ c ∈ b, isDigitIn 10 c = true) (hbv : digitsValue 10 b < 2 ^ 31)
    (hm : m ≠ []) (hmd : ∀ c ∈ m, isDigitIn 10 c = true) (hmv : digitsValue 10 m < 2 ^ 31) :
    parse_pstate (h ++ ": core ".toList ++ a ++ "-".toList ++ b ++ " MHz memory ".toList
        ++ m ++ " MHz\n".toList) =
      .ok ⟨digitsValue 16 h, digitsValue 10 a, digitsValue 10 b, digitsValue 10 m⟩ ∧
    parse_pstate (h ++ ": core ".toList ++ a ++ " MHz memory ".toList
        ++ m ++ " MHz\n".toList) =
      .ok ⟨digitsValue 16 h, digitsValue 10 a, digitsValue 10 a, digitsValue 10 m⟩ ∧
    parse_pstate (h ++ ": core ".toList ++ a ++ "-".toList ++ b ++ " MHz\n".toList) =
      .ok ⟨digitsValue 16 h, digitsValue 10 a, digitsValue 10 b, -1⟩ ∧
    parse_pstate (h ++ ": core ".toList ++ a ++ " MHz\n".toList) =
      .ok ⟨digitsValue 16 h, digitsValue 10 a, digitsValue 10 a, -1⟩ ∧
    parse_pstate (h ++ ": memory ".toList ++ m ++ " MHz\n".toList) =
      .ok ⟨digitsValue 16 h, -1, -1, digitsValue 10 m⟩ ∧
    parse_pstate (h ++ ":\n".toList) = .ok ⟨digitsValue 16 h, -1, -1, -1⟩ := by
  have hsp : (' ' : Char) ∈ delimSpNl := by decide
  have hnl : ('\n' : Char) ∈ delimSpNl := by decide
  have hc : kwCore = kwCore ∨ kwCore = kwMemory := Or.inl rfl
  have hmem : kwMemory = kwCore ∨ kwMemory = kwMemory := Or.inr rfl
  have hcne : kwCore ≠ [] := by decide
  have hmne : kwMemory ≠ [] := by decide
  have hcd : ∀ c ∈ kwCore, c ∉ delimSp := by decide
  have hmd' : ∀ c ∈ kwMemory, c ∉ delimSp := by decide
  have hmc : ¬ (kwMemory = kwCore) := by decide
  refine ⟨?_, ?_, ?_, ?_, ?_, ?_⟩
  · have e : h ++ ": core ".toList ++ a ++ "-".toList ++ b ++ " MHz memory ".toList
        ++ m ++ " MHz\n".toList =
        h ++ ':' :: ' ' :: (kwCore ++ ' ' :: ((a ++ '-' :: b) ++ ' ' :: (kwMHz ++ ' ' ::
          (kwMemory ++ ' ' :: (m ++ ' ' :: (kwMHz ++ '\n' :: [])))))) := by
      simp [kwCore, kwMHz, kwMemory]
    obtain ⟨n, hn⟩ := line_length h (kwCore ++ ' ' :: ((a ++ '-' :: b) ++ ' ' ::
      (kwMHz ++ ' ' :: (kwMemory ++ ' ' :: (m ++ ' ' :: (kwMHz ++ '\n' :: [])))))) ':' ' ' hh
    rw [e, parse_header h _ ' ' hsp hh hhd hhv, hn, parseNext_token _ kwCore _ _ hcne hcd,
      section_range (n + 2) kwCore a b _ ' ' _ hc hsp ha had hav hb hbd hbv,
      parseNext_token _ kwMemory _ _ hmne hmd',
      section_single (n + 1) kwMemory m _ '\n' _ hmem hnl hm hmd hmv, parseNext_nil]
    simp [hmc]
  · have e : h ++ ": core ".toList ++ a ++ " MHz memory ".toList ++ m ++ " MHz\n".toList =
        h ++ ':' :: ' ' :: (kwCore ++ ' ' :: (a ++ ' ' :: (kwMHz ++ ' ' ::
          (kwMemory ++ ' ' :: (m ++ ' ' :: (kwMHz ++ '\n' :: [])))))) := by
      simp [kwCore, kwMHz, kwMemory]
    obtain ⟨n, hn⟩ := line_length h (kwCore ++ ' ' :: (a ++ ' ' ::
      (kwMHz ++ ' ' :: (kwMemory ++ ' ' :: (m ++ ' ' :: (kwMHz ++ '\n' :: [])))))) ':' ' ' hh
    rw [e, parse_header h _ ' ' hsp hh hhd hhv, hn, parseNext_token _ kwCore _ _ hcne hcd,
      section_single (n + 2) kwCore a _ ' ' _ hc hsp ha had hav,
      parseNext_token _ kwMemory _ _ hmne hmd',
      section_single (n + 1) kwMemory m _ '\n' _ hmem hnl hm hmd hmv, parseNext_nil]
    simp [hmc]
  · have e : h ++ ": core ".toList ++ a ++ "-".toList ++ b ++ " MHz\n".toList =
        h ++ ':' :: ' ' :: (kwCore ++ ' ' :: ((a ++ '-' :: b) ++ ' ' ::
          (kwMHz ++ '\n' :: []))) := by
      simp [kwCore, kwMHz]
    obtain ⟨n, hn⟩ := line_length h (kwCore ++ ' ' :: ((a ++ '-' :: b) ++ ' ' ::
      (kwMHz ++ '\n' :: []))) ':' ' ' hh
    rw [e, parse_header h _ ' ' hsp hh hhd hhv, hn, parseNext_token _ kwCore _ _ hcne hcd,
      section_range (n + 2) kwCore a b _ '\n' _ hc hnl ha had hav hb hbd hbv, parseNext_nil]
    simp
  · have e : h ++ ": core ".toList ++ a ++ " MHz\n".toList =
        h ++ ':' :: ' ' :: (kwCore ++ ' ' :: (a ++ ' ' :: (kwMHz ++ '\n' :: []))) := by
      simp [kwCore, kwMHz]
    obtain ⟨n, hn⟩ := line_length h (kwCore ++ ' ' :: (a ++ ' ' ::
      (kwMHz ++ '\n' :: []))) ':' ' ' hh
    rw [e, parse_header h _ ' ' hsp hh hhd hhv, hn, parseNext_token _ kwCore _ _ hcne hcd,
      section_single (n + 2) kwCore a _ '\n' _ hc hnl ha had hav, parseNext_nil]
    simp
  · have e : h ++ ": memory ".toList ++ m ++ " MHz\n".toList =
        h ++ ':' :: ' ' :: (kwMemory ++ ' ' :: (m ++ ' ' :: (kwMHz ++ '\n' :: []))) := by
      simp [kwMemory, kwMHz]
    obtain ⟨n, hn⟩ := line_length h (kwMemory ++ ' ' :: (m ++ ' ' ::
      (kwMHz ++ '\n' :: []))) ':' ' ' hh
    rw [e, parse_header h _ ' ' hsp hh hhd hhv, hn, parseNext_token _ kwMemory _ _ hmne hmd',
      section_single (n + 2) kwMemory m _ '\n' _ hmem hnl hm hmd hmv, parseNext_nil]
    simp [hmc]
  · have e : h ++ ":\n".toList = h ++ ':' :: '\n' :: [] := by simp
    obtain ⟨n, hn⟩ := line_length h [] ':' '\n' hh
    rw [e, parse_header h _ '\n' hnl hh hhd hhv, hn, parseNext_nil]

/-- C1, amended, on the lines of the claim: `0f: core 405-1240 MHz memory 810
MHz` gives (0x0f, 405, 1240, 810) and `07: core 405 MHz memory 810 MHz` gives
(0x07, 405, 405, 810). -/
theorem parse_pstate_line_witness :
    parse_pstate "0f: core 405-1240 MHz memory 810 MHz\n".toList =
      .ok ⟨0x0f, 405, 1240, 810⟩ ∧
    parse_pstate "07: core 405 MHz memory 810 MHz\n".toList = .ok ⟨0x07, 405, 405, 810⟩ :=
  ⟨(parse_pstate_line "0f".toList "405".toList "1240".toList "810".toList
      (by decide) (by decide) (by decide) (by decide) (by decide) (by decide)
      (by decide) (by decide) (by decide) (by decide) (by decide) (by decide)).1,
   (parse_pstate_line "07".toList "405".toList "405".toList "810".toList
      (by decide) (by decide) (by decide) (by decide) (by decide) (by decide)
      (by decide) (by decide) (by decide) (by decide) (by decide) (by decide)).2.1⟩

/-- C2, as stated, fails: for `v = 0x0F` the bytes handed to `write` are `0`, `f`
and a NUL byte, not `0f` followed by a newline. -/
theorem write_pstate_not_newline :
    write_pstate 0x0F = ['0', 'f', Char.ofNat 0] ∧
    write_pstate 0x0F ≠ lower_hex2 0x0F ++ ['\n'] := by
  decide

set_option maxRecDepth 100000 in
/-- C2, amended: for every pstate value `v` in 0..255 the bytes handed to
`write` are the two lowercase hexadecimal digits of `v` followed by one NUL
byte (the terminator `snprintf` stored), three bytes in all. -/
theorem write_pstate_bytes (v : Nat) (hv : v < 256) :
    write_pstate v = lower_hex2 v ++ [Char.ofNat 0] ∧ (write_pstate v).length = 3 := by
  revert v
  decide

/-- C2, amended, at `v = 0xAC`: the bytes are `a`, `c`, NUL. -/
theorem write_pstate_bytes_witness :
    0xAC < 256 ∧ (write_pstate 0xAC = lower_hex2 0xAC ++ [Char.ofNat 0] ∧
      (write_pstate 0xAC).length = 3) :=
  ⟨by decide, write_pstate_bytes 0xAC (by decide)⟩

/-- C3: selector round trip.  For every table and every index `i` below its
length, the selection by id `i` passes `pstates[i].pstate` to `write_pstate`,
the value `pstates[i].pstate` is known to the table, and the selection by that
value passes the same value to `write_pstate` whatever waits on standard
input (no answer is read). -/
theorem selector_round_trip (t : PStates) (i : Nat) (hi : i < t.pstates.length)
    (stdin : List Char) :
    op_set t .PT_ID i stdin = .write (t.pstates.get ⟨i, hi⟩).pstate ∧
    is_known_pstate t (t.pstates.get ⟨i, hi⟩).pstate = true ∧
    op_set t .PT_VALUE (t.pstates.get ⟨i, hi⟩).pstate stdin =
      .write (t.pstates.get ⟨i, hi⟩).pstate := by
  have hk : is_known_pstate t (t.pstates.get ⟨i, hi⟩).pstate = true := by
    unfold is_known_pstate
    rw [List.any_eq_true]
    exact ⟨t.pstates.get ⟨i, hi⟩, List.get_mem _ _ _, by simp⟩
  refine ⟨?_, hk, ?_⟩
  · simp only [op_set, writeEntry]
    rw [List.get?_eq_get hi]
  · simp only [op_set]
    rw [if_pos hk]

/-- C3 on the two-state table: id 1 resolves to 0x0f, and so does the value 0x0f. -/
theorem selector_round_trip_witness :
    op_set (classify [⟨0x07, 405, 405, 810⟩, ⟨0x0f, 405, 1240, 810⟩]) .PT_ID 1 [] =
      .write 0x0f ∧
    is_known_pstate (classify [⟨0x07, 405, 405, 810⟩, ⟨0x0f, 405, 1240, 810⟩]) 0x0f = true ∧
    op_set (classify [⟨0x07, 405, 405, 810⟩, ⟨0x0f, 405, 1240, 810⟩]) .PT_VALUE 0x0f [] =
      .write 0x0f :=
  selector_round_trip (classify [⟨0x07, 405, 405, 810⟩, ⟨0x0f, 405, 1240, 810⟩]) 1
    (by decide) []

/-- C4 at a failing input: with the reserved pstate on the first line and the
highest clock there, `perf` stays 0, the reserved entry, whose `core_maxclock`
2000 is not the greatest one (405) among the entries that are not reserved. -/
theorem perf_reserved_first :
    read_pstates blobReservedFirstHigh =
      .ok ⟨[⟨0xAC, 2000, 2000, 810⟩, ⟨0x07, 405, 405, 810⟩], 0, 1⟩ := by
  rfl

/-- C5 at a failing input: with the reserved pstate on the first line and the
lowest clock there, `enrgy` stays 0, the reserved entry, whose `core_maxclock`
100 is not the smallest one (405) among the entries that are not reserved. -/
theorem enrgy_reserved_first :
    read_pstates blobReservedFirstLow =
      .ok ⟨[⟨0xAC, 100, 100, 810⟩, ⟨0x07, 405, 405, 810⟩], 1, 0⟩ := by
  rfl

/-- C7 at a failing input: on the two-state table `-p id:5` is not rejected;
`pstates[5]` is read beyond the two records and passed to `write_pstate`,
while the same number typed at the interactive prompt is rejected. -/
theorem id_out_of_range_not_rejected :
    main_set blobTwoStates (some "id:5".toList) [] = some (.write_out_of_bounds 5) ∧
    main_set blobTwoStates none "5\n".toList = some .exit_failure := by
  constructor <;> rfl

/-- C9: for every table and every value `v` that no record carries, the
selection by value `v` finds `v` unknown and reads an answer: on `y` or `Y`
the value passed to `write_pstate` is `v`; on any other character, or at end
of input, the operation fails and `write_pstate` is not called. -/
theorem unknown_value_needs_confirmation (t : PStates) (v : Nat)
    (hv : ∀ e ∈ t.pstates, e.pstate ≠ v) :
    is_known_pstate t v = false ∧
    (∀ rest, op_set t .PT_VALUE v ('y' :: rest) = .write v) ∧
    (∀ rest, op_set t .PT_VALUE v ('Y' :: rest) = .write v) ∧
    (∀ c rest, c ≠ 'y' → c ≠ 'Y' → op_set t .PT_VALUE v (c :: rest) = .exit_failure) ∧
    op_set t .PT_VALUE v [] = .exit_failure := by
  have hk : is_known_pstate t v = false := by
    unfold is_known_pstate
    rw [List.any_eq_false]
    intro e he
    simpa using hv e he
  refine ⟨hk, ?_, ?_, ?_, ?_⟩
  · intro rest; simp [op_set, hk]
  · intro rest; simp [op_set, hk]
  · intro c rest h1 h2; simp [op_set, hk, h1, h2]
  · simp [op_set, hk]

/-- C9 on the two-state table with `v = 0x55`. -/
theorem unknown_value_needs_confirmation_witness :
    (∀ e ∈ (classify [⟨0x07, 405, 405, 810⟩, ⟨0x0f, 405, 1240, 810⟩]).pstates,
      e.pstate ≠ 0x55) ∧
    op_set (classify [⟨0x07, 405, 405, 810⟩, ⟨0x0f, 405, 1240, 810⟩]) .PT_VALUE 0x55
      ['y'] = .write 0x55 ∧
    op_set (classify [⟨0x07, 405, 405, 810⟩, ⟨0x0f, 405, 1240, 810⟩]) .PT_VALUE 0x55
      ['n'] = .exit_failure :=
  ⟨by decide,
   (unknown_value_needs_confirmation
      (classify [⟨0x07, 405, 405, 810⟩, ⟨0x0f, 405, 1240, 810⟩]) 0x55 (by decide)).2.1 [],
   (unknown_value_needs_confirmation
      (classify [⟨0x07, 405, 405, 810⟩, ⟨0x0f, 405, 1240, 810⟩]) 0x55 (by decide)).2.2.2.1
      'n' [] (by decide) (by decide)⟩

/-- C6, as stated, fails: in the table of two reserved entries `perf` and
`enrgy` are both 0, the index of a reserved entry, although the table has two
entries. -/
theorem reserved_entry_is_profile :
    read_pstates blobTwoReserved =
      .ok ⟨[⟨0xAC, 405, 405, 810⟩, ⟨0xAC, 1240, 1240, 810⟩], 0, 0⟩ := by
  rfl

/-- C6, amended: for every table a reserved entry at an index `k > 0` is never
the performance or the save-energy profile; and in a table whose entries are
all reserved both indices are left at 0. -/
theorem reserved_later_not_profile (ps : List PStateInfo) :
    (∀ k (hk : k < ps.length), 0 < k → (ps.get ⟨k, hk⟩).pstate = 0xAC →
      (classify ps).perf ≠ k ∧ (classify ps).enrgy ≠ k) ∧
    ((∀ e ∈ ps, e.pstate = 0xAC) → (classify ps).perf = 0 ∧ (classify ps).enrgy = 0) := by
  constructor
  · intro k hk hpos hres
    have hinv := classifyUpTo_zero_or_free ps ps.length
    have hr : (entry ps k).pstate = 0xAC := by
      rw [entry_eq_get ps k hk]; exact hres
    constructor
    · intro h
      rcases hinv.1 with h0 | hf
      · simp only [classify] at h; omega
      · simp only [classify] at h; rw [h] at hf; exact hf hr
    · intro h
      rcases hinv.2 with h0 | hf
      · simp only [classify] at h; omega
      · simp only [classify] at h; rw [h] at hf; exact hf hr
  · intro hall
    simp [classify, classifyUpTo_all_reserved ps hall ps.length (Nat.le_refl _)]

/-- C6, amended, on the table 07, ac (third scenario): the reserved entry at
index 1 is neither profile. -/
theorem reserved_later_not_profile_witness :
    (classify [⟨0x07, 405, 405, 810⟩, ⟨0xAC, 1240, 1240, 810⟩]).perf ≠ 1 ∧
    (classify [⟨0x07, 405, 405, 810⟩, ⟨0xAC, 1240, 1240, 810⟩]).enrgy ≠ 1 :=
  (reserved_later_not_profile [⟨0x07, 405, 405, 810⟩, ⟨0xAC, 1240, 1240, 810⟩]).1 1
    (by decide) (by decide) (by decide)

/-- C8, as stated, fails: on the table whose only entry is reserved, the
selections `performance` and `save-energy` are not rejected; 0xAC is passed to
`write_pstate`. -/
theorem profile_on_reserved_table_writes :
    main_set blobOnlyReserved (some "performance".toList) [] = some (.write 0xAC) ∧
    main_set blobOnlyReserved (some "save-energy".toList) [] = some (.write 0xAC) := by
  constructor <;> rfl

/-- C8, amended: for every non-empty table in which every entry has pstate
0xAC, the selections `performance` and `save-energy` both resolve to entry 0
and pass 0xAC to `write_pstate`. -/
theorem profile_on_reserved_table (ps : List PStateInfo) (hne : ps ≠ [])
    (hall : ∀ e ∈ ps, e.pstate = 0xAC) (new_pstate : Nat) (stdin : List Char) :
    op_set (classify ps) .PT_PROFILE_PERF new_pstate stdin = .write 0xAC ∧
    op_set (classify ps) .PT_PROFILE_ENRGY new_pstate stdin = .write 0xAC := by
  have h0 := classifyUpTo_all_reserved ps hall ps.length (Nat.le_refl _)
  cases ps with
  | nil => exact absurd rfl hne
  | cons e rest =>
    have he : e.pstate = 0xAC := hall e (List.mem_cons_self _ _)
    simp only [op_set, writeEntry, classify, h0]
    simp [he]

/-- C8, amended, on a table of two reserved entries. -/
theorem profile_on_reserved_table_witness :
    op_set (classify [⟨0xAC, 405, 405, 810⟩, ⟨0xAC, 1240, 1240, 810⟩])
      .PT_PROFILE_PERF 0 [] = .write 0xAC ∧
    op_set (classify [⟨0xAC, 405, 405, 810⟩, ⟨0xAC, 1240, 1240, 810⟩])
      .PT_PROFILE_ENRGY 0 [] = .write 0xAC :=
  profile_on_reserved_table [⟨0xAC, 405, 405, 810⟩, ⟨0xAC, 1240, 1240, 810⟩]
    (by decide) (by decide) 0 []

/-- C10, as stated, fails: the line `garbage line` does not begin with a
hexadecimal number and still parses, as pstate 0 with no clocks, so the blob of
the scenario gives a table of three entries, not two. -/
theorem garbage_line_is_parsed :
    parse_pstate "garbage line\n".toList = .ok ⟨0, -1, -1, -1⟩ ∧
    read_pstates blobGarbage =
      .ok ⟨[⟨0x07, 405, 405, 810⟩, ⟨0, -1, -1, -1⟩, ⟨0x0f, 1240, 1240, 810⟩], 2, 1⟩ := by
  constructor <;> rfl

/-- C10, amended: a line on which `strtoul` performs no conversion (after
optional white space, an optional sign and an optional `0x` no hexadecimal
digit follows) is read as pstate 0.  While fewer than `pstates_allocated` (8)
records are stored: when `parse_pstate` succeeds on it the builder appends the
record, whose pstate is 0; when `parse_pstate` fails on it (a malformed
section) the builder adds no entry; in both cases the builder goes on with the
next line.  The blob of the sixth scenario gives a table of three entries, with
the record (0, -1, -1, -1) at index 1. -/
theorem line_without_number (line : List Char) (rest : List (List Char))
    (acc : List PStateInfo) (hacc : acc.length < pstates_allocated)
    (hno : scanNumber 16 (cstr line) = none) :
    (∀ info, parse_pstate (cstr line) = .ok info →
      info.pstate = 0 ∧ readLoop (line :: rest) acc = readLoop rest (acc ++ [info])) ∧
    (∀ e, parse_pstate (cstr line) = .error e →
      readLoop (line :: rest) acc = readLoop rest acc) ∧
    read_pstates blobGarbage =
      .ok ⟨[⟨0x07, 405, 405, 810⟩, ⟨0, -1, -1, -1⟩, ⟨0x0f, 1240, 1240, 810⟩], 2, 1⟩ := by
  have hnot : ¬ acc.length ≥ pstates_allocated := Nat.not_le.mpr hacc
  refine ⟨?_, ?_, by rfl⟩
  · intro info h
    constructor
    · have h' := h
      unfold parse_pstate at h'
      simp only [strtoul, hno] at h'
      split at h'
      · have := parseLoop_pstate _ _ _ _ _ h'
        simpa [toUInt] using this
      · have := parseLoop_pstate _ _ _ _ _ h'
        simpa [toUInt] using this
    · simp only [readLoop, if_neg hnot, h]
  · intro e h
    simp only [readLoop, if_neg hnot, h]

/-- C10, amended, on the line `garbage line`: it contributes the record
(0, -1, -1, -1). -/
theorem line_without_number_witness :
    readLoop ["garbage line\n".toList] [] = .ok [⟨0, -1, -1, -1⟩] :=
  ((line_without_number "garbage line\n".toList [] [] (by decide) (by rfl)).1
    ⟨0, -1, -1, -1⟩ (by rfl)).2

/-! ### The classification loop on a table whose first entry is not reserved -/

/-- The state of the classification loop after the indices below `n + 1`, on a
table whose first entry is not reserved: `perf` and `enrgy` are indices below
`n + 1` of entries that are not reserved, `perf` is the last index with the
greatest `core_maxclock` among the entries seen that are not reserved, and
`enrgy` the first index with the smallest one. -/
theorem classifyUpTo_inv (ps : List PStateInfo) (h0 : (entry ps 0).pstate ≠ 0xAC) (n : Nat) :
    (classifyUpTo ps (n + 1)).1 < n + 1 ∧ (classifyUpTo ps (n + 1)).2 < n + 1 ∧
    (entry ps (classifyUpTo ps (n + 1)).1).pstate ≠ 0xAC ∧
    (entry ps (classifyUpTo ps (n + 1)).2).pstate ≠ 0xAC ∧
    (∀ j, j < n + 1 → (entry ps j).pstate ≠ 0xAC →
      (entry ps j).core_maxclock ≤ (entry ps (classifyUpTo ps (n + 1)).1).core_maxclock ∧
      ((classifyUpTo ps (n + 1)).1 < j →
        (entry ps j).core_maxclock < (entry ps (classifyUpTo ps (n + 1)).1).core_maxclock) ∧
      (entry ps (classifyUpTo ps (n + 1)).2).core_maxclock ≤ (entry ps j).core_maxclock ∧
      (j < (classifyUpTo ps (n + 1)).2 →
        (entry ps (classifyUpTo ps (n + 1)).2).core_maxclock < (entry ps j).core_maxclock)) := by
  induction n with
  | zero =>
    have hs : classifyUpTo ps 1 = (0, 0) := by
      rw [classifyUpTo_succ]
      simp [classifyUpTo, classifyStep, h0]
    rw [hs]
    refine ⟨by decide, by decide, h0, h0, ?_⟩
    intro j hj _
    have : j = 0 := by omega
    subst this
    simp
  | succ n ih =>
    obtain ⟨hp, he, hpf, hef, hall⟩ := ih
    rw [classifyUpTo_succ ps (n + 1)]
    generalize classifyUpTo ps (n + 1) = st at hp he hpf hef hall
    obtain ⟨p, e⟩ := st
    simp only at hp he hpf hef hall
    have hpe := (hall p hp hpf).2.2.1
    unfold classifyStep
    by_cases hr : (entry ps (n + 1)).pstate = 0xAC
    · simp only [hr, if_true]
      refine ⟨by omega, by omega, hpf, hef, ?_⟩
      intro j hj hjf
      have hj' : j < n + 1 := by
        rcases Nat.lt_succ_iff_lt_or_eq.mp hj with h | h
        · exact h
        · subst h; exact absurd hr hjf
      exact hall j hj' hjf
    · simp only [hr, if_false]
      by_cases hge : (entry ps (n + 1)).core_maxclock ≥ (entry ps p).core_maxclock
      · simp only [hge, if_true]
        refine ⟨by omega, by omega, hr, hef, ?_⟩
        intro j hj hjf
        rcases Nat.lt_succ_iff_lt_or_eq.mp hj with h | h
        · obtain ⟨a1, _, a3, a4⟩ := hall j h hjf
          exact ⟨by omega, fun hlt => by omega, a3, a4⟩
        · subst h
          exact ⟨le_refl _, fun hlt => absurd hlt (lt_irrefl _), by omega, fun hlt => by omega⟩
      · simp only [hge, if_false]
        by_cases hlt : (entry ps (n + 1)).core_maxclock < (entry ps e).core_maxclock
        · simp only [hlt, if_true]
          refine ⟨by omega, by omega, hpf, hr, ?_⟩
          intro j hj hjf
          rcases Nat.lt_succ_iff_lt_or_eq.mp hj with h | h
          · obtain ⟨a1, a2, a3, _⟩ := hall j h hjf
            exact ⟨a1, a2, by omega, fun _ => by omega⟩
          · subst h
            exact ⟨by omega, fun _ => by omega, le_refl _,
              fun hl => absurd hl (lt_irrefl _)⟩
        · simp only [hlt, if_false]
          refine ⟨by omega, by omega, hpf, hef, ?_⟩
          intro j hj hjf
          rcases Nat.lt_succ_iff_lt_or_eq.mp hj with h | h
          · exact hall j h hjf
          · subst h
            exact ⟨by omega, fun _ => by omega, by omega, fun hl => by omega⟩

/-- C11 at a failing input: a file of nine well-formed lines gives no table of
nine records.  When the ninth line is read with eight records stored, the
growth branch sets `pstates_len` to 12 and shrinks the buffer to 12 bytes. -/
theorem ninth_line_overruns :
    read_pstates blobNineStates = .error (.buffer_overrun 12) ∧
    ((getlines blobNineStates).filterMap
      (fun l => (parse_pstate (cstr l)).toOption)).length = 9 := by
  constructor <;> rfl

/-- C16 at a failing input: the table `ac`, `0f` has exactly one entry that is
not reserved, and yet `perf = 1` and `enrgy = 0` differ: `enrgy` stays on the
reserved first entry. -/
theorem one_free_entry_two_profiles :
    read_pstates blobReservedFirstEqual =
      .ok ⟨[⟨0xAC, 810, 810, 810⟩, ⟨0x0f, 810, 810, 810⟩], 1, 0⟩ ∧
    ([(⟨0xAC, 810, 810, 810⟩ : PStateInfo), ⟨0x0f, 810, 810, 810⟩].filter
      (fun e => e.pstate ≠ 0xAC)).length = 1 := by
  constructor <;> rfl

/-- C18: for every non-empty table without the reserved pstate, `perf` is the
largest index at which `core_maxclock` attains its maximum and `enrgy` the
smallest index at which it attains its minimum. -/
theorem tie_breaks (ps : List PStateInfo) (hne : ps ≠ [])
    (hfree : ∀ e ∈ ps, e.pstate ≠ 0xAC) :
    IsLastMax ps (classify ps).perf ∧ IsFirstMin ps (classify ps).enrgy := by
  have hfree' : ∀ j, j < ps.length → (entry ps j).pstate ≠ 0xAC := by
    intro j hj
    rw [entry_eq_get ps j hj]
    exact hfree _ (List.get_mem _ _ _)
  have hpos : 0 < ps.length := List.length_pos.mpr hne
  obtain ⟨n, hn⟩ : ∃ n, ps.length = n + 1 := ⟨ps.length - 1, by omega⟩
  have hinv := classifyUpTo_inv ps (hfree' 0 hpos) n
  rw [← hn] at hinv
  obtain ⟨hp, he, -, -, hall⟩ := hinv
  simp only [classify, IsLastMax, IsFirstMin]
  refine ⟨⟨hp, fun j hj => (hall j hj (hfree' j hj)).1, ?_⟩,
    ⟨he, fun j hj => (hall j hj (hfree' j hj)).2.2.1, ?_⟩⟩
  · intro j hj heq
    by_contra hlt
    have := (hall j hj (hfree' j hj)).2.1 (by omega)
    omega
  · intro j hj heq
    by_contra hlt
    have := (hall j hj (hfree' j hj)).2.2.2 (by omega)
    omega

/-- C18 on the entries with `core_maxclock` 405 and 1240: `perf = 1`, `enrgy = 0`. -/
theorem tie_breaks_witness :
    ((classify [⟨0x07, 405, 405, 810⟩, ⟨0x0f, 405, 1240, 810⟩]).perf = 1 ∧
     (classify [⟨0x07, 405, 405, 810⟩, ⟨0x0f, 405, 1240, 810⟩]).enrgy = 0) ∧
    (IsLastMax [⟨0x07, 405, 405, 810⟩, ⟨0x0f, 405, 1240, 810⟩]
       (classify [⟨0x07, 405, 405, 810⟩, ⟨0x0f, 405, 1240, 810⟩]).perf ∧
     IsFirstMin [⟨0x07, 405, 405, 810⟩, ⟨0x0f, 405, 1240, 810⟩]
       (classify [⟨0x07, 405, 405, 810⟩, ⟨0x0f, 405, 1240, 810⟩]).enrgy) :=
  ⟨by decide,
   tie_breaks [⟨0x07, 405, 405, 810⟩, ⟨0x0f, 405, 1240, 810⟩] (by decide) (by decide)⟩

/-- C20: for every table whose first entry is not reserved, after the
classification pass `perf` and `enrgy` are indices of the table and neither
`pstates[perf]` nor `pstates[enrgy]` is reserved, whatever entries follow. -/
theorem profiles_valid (e : PStateInfo) (rest : List PStateInfo)
    (h0 : e.pstate ≠ 0xAC) :
    (classify (e :: rest)).perf < (e :: rest).length ∧
    (classify (e :: rest)).enrgy < (e :: rest).length ∧
    (entry (e :: rest) (classify (e :: rest)).perf).pstate ≠ 0xAC ∧
    (entry (e :: rest) (classify (e :: rest)).enrgy).pstate ≠ 0xAC := by
  have h0' : (entry (e :: rest) 0).pstate ≠ 0xAC := by simpa [entry] using h0
  have hinv := classifyUpTo_inv (e :: rest) h0' rest.length
  obtain ⟨hp, he, hpf, hef, -⟩ := hinv
  simp only [classify, List.length_cons]
  exact ⟨hp, he, hpf, hef⟩

/-- C20 on the table 07, ac, 0f, ac: `perf = 2` and `enrgy = 0`, both free. -/
theorem profiles_valid_witness :
    (classify [⟨0x07, 405, 405, 810⟩, ⟨0xAC, 2000, 2000, 810⟩, ⟨0x0f, 405, 1240, 810⟩,
        ⟨0xAC, 100, 100, 810⟩]).perf < 4 ∧
    (classify [⟨0x07, 405, 405, 810⟩, ⟨0xAC, 2000, 2000, 810⟩, ⟨0x0f, 405, 1240, 810⟩,
        ⟨0xAC, 100, 100, 810⟩]).enrgy < 4 ∧
    (entry [⟨0x07, 405, 405, 810⟩, ⟨0xAC, 2000, 2000, 810⟩, ⟨0x0f, 405, 1240, 810⟩,
        ⟨0xAC, 100, 100, 810⟩]
      (classify [⟨0x07, 405, 405, 810⟩, ⟨0xAC, 2000, 2000, 810⟩, ⟨0x0f, 405, 1240, 810⟩,
        ⟨0xAC, 100, 100, 810⟩]).perf).pstate ≠ 0xAC ∧
    (entry [⟨0x07, 405, 405, 810⟩, ⟨0xAC, 2000, 2000, 810⟩, ⟨0x0f, 405, 1240, 810⟩,
        ⟨0xAC, 100, 100, 810⟩]
      (classify [⟨0x07, 405, 405, 810⟩, ⟨0xAC, 2000, 2000, 810⟩, ⟨0x0f, 405, 1240, 810⟩,
        ⟨0xAC, 100, 100, 810⟩]).enrgy).pstate ≠ 0xAC :=
  profiles_valid ⟨0x07, 405, 405, 810⟩
    [⟨0xAC, 2000, 2000, 810⟩, ⟨0x0f, 405, 1240, 810⟩, ⟨0xAC, 100, 100, 810⟩] (by decide)

/-- C17, as stated, fails: the id `1ac` is stored as 0x1ac, not as its low
byte 0xac; the stored pstate is not below 256. -/
theorem pstate_not_low_byte :
    parse_pstate "1ac: core 405 MHz memory 810 MHz\n".toList =
      .ok ⟨0x1ac, 405, 405, 810⟩ ∧
    digitsValue 16 "1ac".toList % 256 = 0xAC ∧ ¬ (0x1ac < 256) := by
  refine ⟨by rfl, by rfl, by decide⟩

/-- C17, amended: for every line that begins with a hexadecimal number `H` of
any length, the pstate of the record `parse_pstate` returns is a 32-bit value:
`H mod 2^32` when `H` fits 64 bits, and 0xffffffff (`ULONG_MAX` truncated)
otherwise. -/
theorem pstate_low_32_bits (h rest : List Char) (r : PStateInfo)
    (hh : h ≠ []) (hhd : ∀ c ∈ h, isDigitIn 16 c = true)
    (hr : ∀ c ∈ rest.head?, isDigitIn 16 c = false ∧ c ≠ 'x' ∧ c ≠ 'X')
    (hok : parse_pstate (h ++ rest) = .ok r) :
    r.pstate =
      (if digitsValue 16 h > ULONG_MAX then ULONG_MAX else digitsValue 16 h) % 2 ^ 32 ∧
    r.pstate < 2 ^ 32 := by
  have hs : (strtoul (h ++ rest) 16).1 =
      (if digitsValue 16 h > ULONG_MAX then ULONG_MAX else digitsValue 16 h) := by
    unfold strtoul
    rw [scanNumber_digits 16 (by decide) h rest hh hhd hr]
    simp only
    split_ifs <;> simp_all
  have hp : r.pstate = toUInt (strtoul (h ++ rest) 16).1 := by
    unfold parse_pstate at hok
    simp only at hok
    split at hok
    · exact parseLoop_pstate _ _ _ _ _ hok
    · exact parseLoop_pstate _ _ _ _ _ hok
  rw [hp, hs]
  exact ⟨rfl, Nat.mod_lt _ (by decide)⟩

/-- C17, amended, on the line `1ac: core 405 MHz memory 810 MHz`: the pstate
stored is 0x1ac. -/
theorem pstate_low_32_bits_witness :
    (⟨0x1ac, 405, 405, 810⟩ : PStateInfo).pstate =
      (if digitsValue 16 "1ac".toList > ULONG_MAX then ULONG_MAX
        else digitsValue 16 "1ac".toList) % 2 ^ 32 ∧
    (⟨0x1ac, 405, 405, 810⟩ : PStateInfo).pstate < 2 ^ 32 :=
  pstate_low_32_bits "1ac".toList ": core 405 MHz memory 810 MHz\n".toList
    ⟨0x1ac, 405, 405, 810⟩ (by decide) (by decide) (by decide) (by rfl)

/-! ### Sections in GHz -/

/-- One iteration of the loop on a well-formed section in GHz. -/
theorem parseLoop_section_GHz (n : Nat) (tok saved clk s1 s2 p : List Char) (lo hi : Int)
    (info : PStateInfo) (htok : tok = kwCore ∨ tok = kwMemory)
    (h1 : strtok saved delimSpNl = some (clk, s1))
    (h2 : strtol clk 10 = (lo, p))
    (h3 : (p = [] ∧ hi = lo) ∨ ∃ q, p = '-' :: q ∧ strtol q 10 = (hi, []))
    (h4 : strtok s1 delimSpNl = some (kwGHz, s2)) :
    parseLoop (n + 1) (some tok) saved info =
      parseNext n s2
        (if tok = kwCore then
          { info with core_minclock := toInt (toInt lo * 1000),
                      core_maxclock := toInt (toInt hi * 1000) }
         else { info with mem_clock := toInt (toInt hi * 1000) }) := by
  have hu : ¬ (kwGHz ≠ kwGHz ∧ kwGHz ≠ kwMHz) := by simp
  rcases h3 with ⟨hp, hhi⟩ | ⟨q, hp, hq⟩
  · subst hp hhi
    simp only [parseLoop, parseNext, htok, if_true, h1, h2, h4, hu, if_false, ne_eq,
      not_true_eq_false]
    simp
  · subst hp
    simp only [parseLoop, parseNext, htok, if_true, h1, h2, h4, hu, if_false, ne_eq,
      not_true_eq_false, hq]
    simp

theorem toInt_scaled (n : Nat) (hn : 1000 * n < 2 ^ 31) :
    toInt (toInt (n : Int) * 1000) = 1000 * (n : Int) := by
  have h1 : toInt (n : Int) = (n : Int) := toInt_of_lt n (by omega)
  rw [h1]
  unfold toInt
  omega

/-- One iteration of the loop on a section `<a>-<b> GHz`. -/
theorem section_range_GHz (n : Nat) (kw a b rest : List Char) (d : Char) (info : PStateInfo)
    (hkw : kw = kwCore ∨ kw = kwMemory) (hd : d ∈ delimSpNl)
    (ha : a ≠ []) (had : ∀ c ∈ a, isDigitIn 10 c = true)
    (hav : 1000 * digitsValue 10 a < 2 ^ 31)
    (hb : b ≠ []) (hbd : ∀ c ∈ b, isDigitIn 10 c = true)
    (hbv : 1000 * digitsValue 10 b < 2 ^ 31) :
    parseLoop (n + 1) (some kw) ((a ++ '-' :: b) ++ ' ' :: (kwGHz ++ d :: rest)) info =
      parseNext n rest
        (if kw = kwCore then
          { info with core_minclock := 1000 * (digitsValue 10 a : Int),
                      core_maxclock := 1000 * (digitsValue 10 b : Int) }
         else { info with mem_clock := 1000 * (digitsValue 10 b : Int) }) := by
  have h1 : strtok ((a ++ '-' :: b) ++ ' ' :: (kwGHz ++ d :: rest)) delimSpNl =
      some (a ++ '-' :: b, kwGHz ++ d :: rest) := by
    apply strtok_token _ ' ' _ delimSpNl (by simp) _ (by decide)
    intro c hc
    rcases List.mem_append.mp hc with hc | hc
    · exact (digit_not_delim c (had c hc)).1
    · rcases List.mem_cons.mp hc with rfl | hc
      · decide
      · exact (digit_not_delim c (hbd c hc)).1
  have h2 : strtol (a ++ '-' :: b) 10 = ((digitsValue 10 a : Int), '-' :: b) := by
    apply strtol_digits 10 (by decide) a _ ha had _ (by omega)
    intro c hc
    simp only [List.head?_cons, Option.mem_def, Option.some.injEq] at hc
    subst hc
    decide
  have h3 : strtol b 10 = ((digitsValue 10 b : Int), []) := by
    have := strtol_digits 10 (by decide) b [] hb hbd (by simp) (by omega)
    simpa using this
  have h4 : strtok (kwGHz ++ d :: rest) delimSpNl = some (kwGHz, rest) :=
    strtok_token kwGHz d rest delimSpNl (by decide) (by decide) hd
  rw [parseLoop_section_GHz n kw _ _ _ rest _ _ _ info hkw h1 h2 (Or.inr ⟨b, rfl, h3⟩) h4,
    toInt_scaled _ hav, toInt_scaled _ hbv]

/-- One iteration of the loop on a section `<a> GHz`. -/
theorem section_single_GHz (n : Nat) (kw a rest : List Char) (d : Char) (info : PStateInfo)
    (hkw : kw = kwCore ∨ kw = kwMemory) (hd : d ∈ delimSpNl)
    (ha : a ≠ []) (had : ∀ c ∈ a, isDigitIn 10 c = true)
    (hav : 1000 * digitsValue 10 a < 2 ^ 31) :
    parseLoop (n + 1) (some kw) (a ++ ' ' :: (kwGHz ++ d :: rest)) info =
      parseNext n rest
        (if kw = kwCore then
          { info with core_minclock := 1000 * (digitsValue 10 a : Int),
                      core_maxclock := 1000 * (digitsValue 10 a : Int) }
         else { info with mem_clock := 1000 * (digitsValue 10 a : Int) }) := by
  have h1 : strtok (a ++ ' ' :: (kwGHz ++ d :: rest)) delimSpNl =
      some (a, kwGHz ++ d :: rest) :=
    strtok_token a ' ' _ delimSpNl ha (fun c hc => (digit_not_delim c (had c hc)).1)
      (by decide)
  have h2 : strtol a 10 = ((digitsValue 10 a : Int), []) := by
    have := strtol_digits 10 (by decide) a [] ha had (by simp) (by omega)
    simpa using this
  have h4 : strtok (kwGHz ++ d :: rest) delimSpNl = some (kwGHz, rest) :=
    strtok_token kwGHz d rest delimSpNl (by decide) (by decide) hd
  rw [parseLoop_section_GHz n kw _ _ _ rest _ _ _ info hkw h1 h2 (Or.inl ⟨rfl, rfl⟩) h4,
    toInt_scaled _ hav]

/-- C12, as stated, fails: a clock of 3000000 GHz does not fit the `int`
fields in megahertz; the value stored is not 1000 * 3000000. -/
theorem ghz_overflow :
    parse_pstate "03: core 3000000 GHz memory 3 GHz\n".toList =
      .ok ⟨3, -1294967296, -1294967296, 3000⟩ ∧
    (-1294967296 : Int) ≠ 1000 * 3000000 := by
  refine ⟨by rfl, by decide⟩

/-- C12, amended: for decimal clock values whose thousandfold fits a 32-bit
signed int, a section `core A-B GHz` stores 1000 * A and 1000 * B, a section
`core X GHz` stores 1000 * X in both core fields, and a section
`memory X GHz` stores 1000 * X. -/
theorem ghz_normalised (h a b m : List Char)
    (hh : h ≠ []) (hhd : ∀ c ∈ h, isDigitIn 16 c = true) (hhv : digitsValue 16 h < 2 ^ 32)
    (ha : a ≠ []) (had : ∀ c ∈ a, isDigitIn 10 c = true)
    (hav : 1000 * digitsValue 10 a < 2 ^ 31)
    (hb : b ≠ []) (hbd : ∀ c ∈ b, isDigitIn 10 c = true)
    (hbv : 1000 * digitsValue 10 b < 2 ^ 31)
    (hm : m ≠ []) (hmd : ∀ c ∈ m, isDigitIn 10 c = true)
    (hmv : 1000 * digitsValue 10 m < 2 ^ 31) :
    parse_pstate (h ++ ": core ".toList ++ a ++ "-".toList ++ b ++ " GHz memory ".toList
        ++ m ++ " GHz\n".toList) =
      .ok ⟨digitsValue 16 h, 1000 * digitsValue 10 a, 1000 * digitsValue 10 b,
        1000 * digitsValue 10 m⟩ ∧
    parse_pstate (h ++ ": core ".toList ++ a ++ " GHz\n".toList) =
      .ok ⟨digitsValue 16 h, 1000 * digitsValue 10 a, 1000 * digitsValue 10 a, -1⟩ ∧
    parse_pstate (h ++ ": memory ".toList ++ m ++ " GHz\n".toList) =
      .ok ⟨digitsValue 16 h, -1, -1, 1000 * digitsValue 10 m⟩ := by
  have hsp : (' ' : Char) ∈ delimSpNl := by decide
  have hnl : ('\n' : Char) ∈ delimSpNl := by decide
  have hc : kwCore = kwCore ∨ kwCore = kwMemory := Or.inl rfl
  have hmem : kwMemory = kwCore ∨ kwMemory = kwMemory := Or.inr rfl
  have hcne : kwCore ≠ [] := by decide
  have hmne : kwMemory ≠ [] := by decide
  have hcd : ∀ c ∈ kwCore, c ∉ delimSp := by decide
  have hmd' : ∀ c ∈ kwMemory, c ∉ delimSp := by decide
  have hmc : ¬ (kwMemory = kwCore) := by decide
  refine ⟨?_, ?_, ?_⟩
  · have e : h ++ ": core ".toList ++ a ++ "-".toList ++ b ++ " GHz memory ".toList
        ++ m ++ " GHz\n".toList =
        h ++ ':' :: ' ' :: (kwCore ++ ' ' :: ((a ++ '-' :: b) ++ ' ' :: (kwGHz ++ ' ' ::
          (kwMemory ++ ' ' :: (m ++ ' ' :: (kwGHz ++ '\n' :: [])))))) := by
      simp [kwCore, kwGHz, kwMemory]
    obtain ⟨n, hn⟩ := line_length h (kwCore ++ ' ' :: ((a ++ '-' :: b) ++ ' ' ::
      (kwGHz ++ ' ' :: (kwMemory ++ ' ' :: (m ++ ' ' :: (kwGHz ++ '\n' :: [])))))) ':' ' ' hh
    rw [e, parse_header h _ ' ' hsp hh hhd hhv, hn, parseNext_token _ kwCore _ _ hcne hcd,
      section_range_GHz (n + 2) kwCore a b _ ' ' _ hc hsp ha had hav hb hbd hbv,
      parseNext_token _ kwMemory _ _ hmne hmd',
      section_single_GHz (n + 1) kwMemory m _ '\n' _ hmem hnl hm hmd hmv, parseNext_nil]
    simp [hmc]
  · have e : h ++ ": core ".toList ++ a ++ " GHz\n".toList =
        h ++ ':' :: ' ' :: (kwCore ++ ' ' :: (a ++ ' ' :: (kwGHz ++ '\n' :: []))) := by
      simp [kwCore, kwGHz]
    obtain ⟨n, hn⟩ := line_length h (kwCore ++ ' ' :: (a ++ ' ' ::
      (kwGHz ++ '\n' :: []))) ':' ' ' hh
    rw [e, parse_header h _ ' ' hsp hh hhd hhv, hn, parseNext_token _ kwCore _ _ hcne hcd,
      section_single_GHz (n + 2) kwCore a _ '\n' _ hc hnl ha had hav, parseNext_nil]
    simp
  · have e : h ++ ": memory ".toList ++ m ++ " GHz\n".toList =
        h ++ ':' :: ' ' :: (kwMemory ++ ' ' :: (m ++ ' ' :: (kwGHz ++ '\n' :: []))) := by
      simp [kwMemory, kwGHz]
    obtain ⟨n, hn⟩ := line_length h (kwMemory ++ ' ' :: (m ++ ' ' ::
      (kwGHz ++ '\n' :: []))) ':' ' ' hh
    rw [e, parse_header h _ ' ' hsp hh hhd hhv, hn, parseNext_token _ kwMemory _ _ hmne hmd',
      section_single_GHz (n + 2) kwMemory m _ '\n' _ hmem hnl hm hmd hmv, parseNext_nil]
    simp [hmc]

/-- C12, amended, on the line of the second scenario: `03: core 1-2 GHz memory
3 GHz` gives core_min = 1000, core_max = 2000, mem = 3000. -/
theorem ghz_normalised_witness :
    parse_pstate "03: core 1-2 GHz memory 3 GHz\n".toList = .ok ⟨3, 1000, 2000, 3000⟩ :=
  (ghz_normalised "03".toList "1".toList "2".toList "3".toList
    (by decide) (by decide) (by decide) (by decide) (by decide) (by decide)
    (by decide) (by decide) (by decide) (by decide) (by decide) (by decide)).1

/-- C13, as stated, fails: on `07: core 1240-405 MHz memory 810 MHz` the parse
succeeds with core_minclock = 1240 above core_maxclock = 405, both
non-negative. -/
theorem descending_range_kept :
    parse_pstate "07: core 1240-405 MHz memory 810 MHz\n".toList =
      .ok ⟨7, 1240, 405, 810⟩ ∧
    ¬ ((1240 : Int) ≤ 405) := by
  refine ⟨by rfl, by decide⟩

/-- C13, amended: on a line `<h>: core <a>-<b> MHz memory <m> MHz` the record
has core_minclock = a and core_maxclock = b as written, so that
core_minclock ≤ core_maxclock holds exactly when a ≤ b; on a line with the
single clock `core <a> MHz` the two fields are equal. -/
theorem core_range_as_written (h a b m : List Char)
    (hh : h ≠ []) (hhd : ∀ c ∈ h, isDigitIn 16 c = true) (hhv : digitsValue 16 h < 2 ^ 32)
    (ha : a ≠ []) (had : ∀ c ∈ a, isDigitIn 10 c = true) (hav : digitsValue 10 a < 2 ^ 31)
    (hb : b ≠ []) (hbd : ∀ c ∈ b, isDigitIn 10 c = true) (hbv : digitsValue 10 b < 2 ^ 31)
    (hm : m ≠ []) (hmd : ∀ c ∈ m, isDigitIn 10 c = true) (hmv : digitsValue 10 m < 2 ^ 31) :
    (∃ r, parse_pstate (h ++ ": core ".toList ++ a ++ "-".toList ++ b ++
          " MHz memory ".toList ++ m ++ " MHz\n".toList) = .ok r ∧
      r.core_minclock = digitsValue 10 a ∧ r.core_maxclock = digitsValue 10 b ∧
      (r.core_minclock ≤ r.core_maxclock ↔ digitsValue 10 a ≤ digitsValue 10 b)) ∧
    (∃ r, parse_pstate (h ++ ": core ".toList ++ a ++ " MHz memory ".toList ++ m ++
          " MHz\n".toList) = .ok r ∧
      r.core_minclock = digitsValue 10 a ∧ r.core_maxclock = r.core_minclock) := by
  have hsp : (' ' : Char) ∈ delimSpNl := by decide
  have hnl : ('\n' : Char) ∈ delimSpNl := by decide
  have hc : kwCore = kwCore ∨ kwCore = kwMemory := Or.inl rfl
  have hmem : kwMemory = kwCore ∨ kwMemory = kwMemory := Or.inr rfl
  have hcne : kwCore ≠ [] := by decide
  have hmne : kwMemory ≠ [] := by decide
  have hcd : ∀ c ∈ kwCore, c ∉ delimSp := by decide
  have hmd' : ∀ c ∈ kwMemory, c ∉ delimSp := by decide
  have hmc : ¬ (kwMemory = kwCore) := by decide
  constructor
  · refine ⟨⟨digitsValue 16 h, digitsValue 10 a, digitsValue 10 b, digitsValue 10 m⟩,
      ?_, rfl, rfl, by simp⟩
    have e : h ++ ": core ".toList ++ a ++ "-".toList ++ b ++ " MHz memory ".toList
        ++ m ++ " MHz\n".toList =
        h ++ ':' :: ' ' :: (kwCore ++ ' ' :: ((a ++ '-' :: b) ++ ' ' :: (kwMHz ++ ' ' ::
          (kwMemory ++ ' ' :: (m ++ ' ' :: (kwMHz ++ '\n' :: [])))))) := by
      simp [kwCore, kwMHz, kwMemory]
    obtain ⟨n, hn⟩ := line_length h (kwCore ++ ' ' :: ((a ++ '-' :: b) ++ ' ' ::
      (kwMHz ++ ' ' :: (kwMemory ++ ' ' :: (m ++ ' ' :: (kwMHz ++ '\n' :: [])))))) ':' ' ' hh
    rw [e, parse_header h _ ' ' hsp hh hhd hhv, hn, parseNext_token _ kwCore _ _ hcne hcd,
      section_range (n + 2) kwCore a b _ ' ' _ hc hsp ha had hav hb hbd hbv,
      parseNext_token _ kwMemory _ _ hmne hmd',
      section_single (n + 1) kwMemory m _ '\n' _ hmem hnl hm hmd hmv, parseNext_nil]
    simp [hmc]
  · refine ⟨⟨digitsValue 16 h, digitsValue 10 a, digitsValue 10 a, digitsValue 10 m⟩,
      ?_, rfl, rfl⟩
    have e : h ++ ": core ".toList ++ a ++ " MHz memory ".toList ++ m ++ " MHz\n".toList =
        h ++ ':' :: ' ' :: (kwCore ++ ' ' :: (a ++ ' ' :: (kwMHz ++ ' ' ::
          (kwMemory ++ ' ' :: (m ++ ' ' :: (kwMHz ++ '\n' :: [])))))) := by
      simp [kwCore, kwMHz, kwMemory]
    obtain ⟨n, hn⟩ := line_length h (kwCore ++ ' ' :: (a ++ ' ' ::
      (kwMHz ++ ' ' :: (kwMemory ++ ' ' :: (m ++ ' ' :: (kwMHz ++ '\n' :: [])))))) ':' ' ' hh
    rw [e, parse_header h _ ' ' hsp hh hhd hhv, hn, parseNext_token _ kwCore _ _ hcne hcd,
      section_single (n + 2) kwCore a _ ' ' _ hc hsp ha had hav,
      parseNext_token _ kwMemory _ _ hmne hmd',
      section_single (n + 1) kwMemory m _ '\n' _ hmem hnl hm hmd hmv, parseNext_nil]
    simp [hmc]

/-- C13, amended, on `0f: core 405-1240 MHz memory 810 MHz`: the range is
ascending and core_minclock = 405 ≤ core_maxclock = 1240. -/
theorem core_range_as_written_witness :
    ∃ r, parse_pstate "0f: core 405-1240 MHz memory 810 MHz\n".toList = .ok r ∧
      r.core_minclock = 405 ∧ r.core_maxclock = 1240 ∧
      (r.core_minclock ≤ r.core_maxclock ↔ 405 ≤ 1240) :=
  (core_range_as_written "0f".toList "405".toList "1240".toList "810".toList
    (by decide) (by decide) (by decide) (by decide) (by decide) (by decide)
    (by decide) (by decide) (by decide) (by decide) (by decide) (by decide)).1

/-- C15, as stated, fails: on `memory 810-405 MHz` the value stored is the
second number, 405, not the greater one, 810. -/
theorem memory_range_not_max :
    parse_pstate "07: core 405 MHz memory 810-405 MHz\n".toList =
      .ok ⟨7, 405, 405, 405⟩ ∧
    (405 : Int) ≠ max 810 405 := by
  refine ⟨by rfl, by decide⟩

/-- C15, amended: for a memory section written as a range `memory A-B MHz`
the parsed mem_clock is the second bound `B` (which is max(A, B) when
`A ≤ B`), and for `memory A-B GHz` it is 1000 * B. -/
theorem memory_range_second (h a b : List Char)
    (hh : h ≠ []) (hhd : ∀ c ∈ h, isDigitIn 16 c = true) (hhv : digitsValue 16 h < 2 ^ 32)
    (ha : a ≠ []) (had : ∀ c ∈ a, isDigitIn 10 c = true) (hav : digitsValue 10 a < 2 ^ 31)
    (hb : b ≠ []) (hbd : ∀ c ∈ b, isDigitIn 10 c = true) (hbv : digitsValue 10 b < 2 ^ 31) :
    parse_pstate (h ++ ": memory ".toList ++ a ++ "-".toList ++ b ++ " MHz\n".toList) =
      .ok ⟨digitsValue 16 h, -1, -1, digitsValue 10 b⟩ ∧
    (digitsValue 10 a ≤ digitsValue 10 b →
      ((digitsValue 10 b : Nat) : Int) = max (digitsValue 10 a : Int) (digitsValue 10 b : Int)) ∧
    (1000 * digitsValue 10 a < 2 ^ 31 → 1000 * digitsValue 10 b < 2 ^ 31 →
      parse_pstate (h ++ ": memory ".toList ++ a ++ "-".toList ++ b ++ " GHz\n".toList) =
        .ok ⟨digitsValue 16 h, -1, -1, 1000 * digitsValue 10 b⟩) := by
  have hsp : (' ' : Char) ∈ delimSpNl := by decide
  have hnl : ('\n' : Char) ∈ delimSpNl := by decide
  have hmem : kwMemory = kwCore ∨ kwMemory = kwMemory := Or.inr rfl
  have hmne : kwMemory ≠ [] := by decide
  have hmd' : ∀ c ∈ kwMemory, c ∉ delimSp := by decide
  have hmc : ¬ (kwMemory = kwCore) := by decide
  refine ⟨?_, ?_, ?_⟩
  · have e : h ++ ": memory ".toList ++ a ++ "-".toList ++ b ++ " MHz\n".toList =
        h ++ ':' :: ' ' :: (kwMemory ++ ' ' :: ((a ++ '-' :: b) ++ ' ' ::
          (kwMHz ++ '\n' :: []))) := by
      simp [kwMemory, kwMHz]
    obtain ⟨n, hn⟩ := line_length h (kwMemory ++ ' ' :: ((a ++ '-' :: b) ++ ' ' ::
      (kwMHz ++ '\n' :: []))) ':' ' ' hh
    rw [e, parse_header h _ ' ' hsp hh hhd hhv, hn, parseNext_token _ kwMemory _ _ hmne hmd',
      section_range (n + 2) kwMemory a b _ '\n' _ hmem hnl ha had hav hb hbd hbv,
      parseNext_nil]
    simp [hmc]
  · intro hle
    have : (digitsValue 10 a : Int) ≤ (digitsValue 10 b : Int) := by exact_mod_cast hle
    exact (max_eq_right this).symm
  · intro hav' hbv'
    have e : h ++ ": memory ".toList ++ a ++ "-".toList ++ b ++ " GHz\n".toList =
        h ++ ':' :: ' ' :: (kwMemory ++ ' ' :: ((a ++ '-' :: b) ++ ' ' ::
          (kwGHz ++ '\n' :: []))) := by
      simp [kwMemory, kwGHz]
    obtain ⟨n, hn⟩ := line_length h (kwMemory ++ ' ' :: ((a ++ '-' :: b) ++ ' ' ::
      (kwGHz ++ '\n' :: []))) ':' ' ' hh
    rw [e, parse_header h _ ' ' hsp hh hhd hhv, hn, parseNext_token _ kwMemory _ _ hmne hmd',
      section_range_GHz (n + 2) kwMemory a b _ '\n' _ hmem hnl ha had hav' hb hbd hbv',
      parseNext_nil]
    simp [hmc]

/-- C15, amended, on `07: memory 405-810 MHz` and `07: memory 1-2 GHz`: the
values stored are 810 and 2000. -/
theorem memory_range_second_witness :
    parse_pstate "07: memory 405-810 MHz\n".toList = .ok ⟨7, -1, -1, 810⟩ ∧
    parse_pstate "07: memory 1-2 GHz\n".toList = .ok ⟨7, -1, -1, 2000⟩ :=
  ⟨(memory_range_second "07".toList "405".toList "810".toList
      (by decide) (by decide) (by decide) (by decide) (by decide) (by decide)
      (by decide) (by decide) (by decide)).1,
   (memory_range_second "07".toList "1".toList "2".toList
      (by decide) (by decide) (by decide) (by decide) (by decide) (by decide)
      (by decide) (by decide) (by decide)).2.2 (by decide) (by decide)⟩

/-! ### Sections with a wrong or missing unit -/

/-- The loop fails on a section whose clock token is followed by no token or
by a token that is neither `GHz` nor `MHz`. -/
theorem parseLoop_bad_unit (n : Nat) (tok saved clk s1 : List Char) (info : PStateInfo)
    (htok : tok = kwCore ∨ tok = kwMemory)
    (h1 : strtok saved delimSpNl = some (clk, s1))
    (h2 : strtok s1 delimSpNl = none ∨
      ∃ u s2, strtok s1 delimSpNl = some (u, s2) ∧ u ≠ kwGHz ∧ u ≠ kwMHz) :
    ∃ e, parseLoop (n + 1) (some tok) saved info = .error e ∧ e ≠ .out_of_fuel := by
  simp only [parseLoop, htok, if_true, h1]
  split
  · exact ⟨_, rfl, by decide⟩
  · rcases h2 with h2 | ⟨u, s2, h2, hg, hm⟩
    · simp only [h2]
      exact ⟨_, rfl, by decide⟩
    · simp only [h2, hg, hm, ne_eq, not_false_eq_true, and_self, if_true]
      exact ⟨_, rfl, by decide⟩

/-- The start of `parse_pstate` on a line `<hex id>:` followed by a delimiter,
for an id of any length. -/
theorem parse_header_any (h body : List Char) (d : Char) (hd : d ∈ delimSpNl)
    (hh : h ≠ []) (hhd : ∀ c ∈ h, isDigitIn 16 c = true) :
    ∃ info, parse_pstate (h ++ ':' :: d :: body) =
      parseNext (h ++ ':' :: d :: body).length body info := by
  have hr : ∀ c ∈ (':' :: d :: body).head?, isDigitIn 16 c = false ∧ c ≠ 'x' ∧ c ≠ 'X' := by
    intro c hc
    simp only [List.head?_cons, Option.mem_def, Option.some.injEq] at hc
    subst hc
    decide
  have hs : (strtoul (h ++ ':' :: d :: body) 16).2 = ':' :: d :: body := by
    unfold strtoul
    rw [scanNumber_digits 16 (by decide) h _ hh hhd hr]
    simp only
    split_ifs <;> rfl
  have ht : strtok (':' :: d :: body) delimSpNl = some ([':'], body) :=
    strtok_token [':'] d body delimSpNl (by simp) (by decide) hd
  unfold parse_pstate
  simp only [hs, ht]
  exact ⟨_, parseLoop_other _ _ _ _ (by decide) (by decide)⟩

/-- Sections with a wrong or missing unit: a line whose `core` or `memory`
section has a clock token followed by a unit token other than exactly `MHz` or
`GHz`, or by no unit token, makes `parse_pstate` fail (return 1), at whatever
point of a line the loop meets the section; and `read_pstates`, while fewer
than `pstates_allocated` records are stored, adds no entry for the line and
goes on with the next one. -/
theorem bad_unit_rejected (h kw clk u post : List Char) (d : Char)
    (hh : h ≠ []) (hhd : ∀ c ∈ h, isDigitIn 16 c = true)
    (hkw : kw = kwCore ∨ kw = kwMemory)
    (hclk : clk ≠ []) (hclkd : ∀ c ∈ clk, c ∉ delimSpNl)
    (hu : u ≠ []) (hud : ∀ c ∈ u, c ∉ delimSpNl) (hd : d ∈ delimSpNl)
    (hg : u ≠ kwGHz) (hm : u ≠ kwMHz) :
    (∃ e, parse_pstate (h ++ ": ".toList ++ kw ++ " ".toList ++ clk ++ " ".toList ++ u ++
        d :: post) = .error e ∧ e ≠ .out_of_fuel) ∧
    (∃ e, parse_pstate (h ++ ": ".toList ++ kw ++ " ".toList ++ clk ++ "\n".toList) =
        .error e ∧ e ≠ .out_of_fuel) ∧
    (∀ n info, ∃ e, parseLoop (n + 1) (some kw) (clk ++ ' ' :: (u ++ d :: post)) info =
        .error e ∧ e ≠ .out_of_fuel) ∧
    (∀ L rest acc, acc.length < pstates_allocated →
      (cstr L = h ++ ": ".toList ++ kw ++ " ".toList ++ clk ++ " ".toList ++ u ++ d :: post ∨
       cstr L = h ++ ": ".toList ++ kw ++ " ".toList ++ clk ++ "\n".toList) →
      readLoop (L :: rest) acc = readLoop rest acc) := by
  have hsp : (' ' : Char) ∈ delimSpNl := by decide
  have hkne : kw ≠ [] := by rcases hkw with rfl | rfl <;> decide
  have hkd : ∀ c ∈ kw, c ∉ delimSp := by rcases hkw with rfl | rfl <;> decide
  have hA1 : strtok (clk ++ ' ' :: (u ++ d :: post)) delimSpNl =
      some (clk, u ++ d :: post) :=
    strtok_token clk ' ' _ delimSpNl hclk hclkd (by decide)
  have hA2 : strtok (u ++ d :: post) delimSpNl = some (u, post) :=
    strtok_token u d post delimSpNl hu hud hd
  have hB1 : strtok (clk ++ '\n' :: []) delimSpNl = some (clk, []) :=
    strtok_token clk '\n' [] delimSpNl hclk hclkd (by decide)
  have hB2 : strtok [] delimSpNl = none := by simp [strtok]
  have hloopA : ∀ n info, ∃ e, parseLoop (n + 1) (some kw) (clk ++ ' ' :: (u ++ d :: post))
      info = .error e ∧ e ≠ .out_of_fuel := fun n info =>
    parseLoop_bad_unit n kw _ clk _ info hkw hA1 (Or.inr ⟨u, post, hA2, hg, hm⟩)
  have hloopB : ∀ n info, ∃ e, parseLoop (n + 1) (some kw) (clk ++ '\n' :: []) info =
      .error e ∧ e ≠ .out_of_fuel := fun n info =>
    parseLoop_bad_unit n kw _ clk _ info hkw hB1 (Or.inl hB2)
  have hA : ∃ e, parse_pstate (h ++ ": ".toList ++ kw ++ " ".toList ++ clk ++ " ".toList ++
      u ++ d :: post) = .error e ∧ e ≠ .out_of_fuel := by
    have e : h ++ ": ".toList ++ kw ++ " ".toList ++ clk ++ " ".toList ++ u ++ d :: post =
        h ++ ':' :: ' ' :: (kw ++ ' ' :: (clk ++ ' ' :: (u ++ d :: post))) := by simp
    obtain ⟨n, hn⟩ := line_length h (kw ++ ' ' :: (clk ++ ' ' :: (u ++ d :: post))) ':' ' ' hh
    obtain ⟨info, hp⟩ := parse_header_any h (kw ++ ' ' :: (clk ++ ' ' :: (u ++ d :: post)))
      ' ' hsp hh hhd
    rw [e, hp, hn, parseNext_token _ kw _ _ hkne hkd]
    exact hloopA _ _
  have hB : ∃ e, parse_pstate (h ++ ": ".toList ++ kw ++ " ".toList ++ clk ++ "\n".toList) =
      .error e ∧ e ≠ .out_of_fuel := by
    have e : h ++ ": ".toList ++ kw ++ " ".toList ++ clk ++ "\n".toList =
        h ++ ':' :: ' ' :: (kw ++ ' ' :: (clk ++ '\n' :: [])) := by simp
    obtain ⟨n, hn⟩ := line_length h (kw ++ ' ' :: (clk ++ '\n' :: [])) ':' ' ' hh
    obtain ⟨info, hp⟩ := parse_header_any h (kw ++ ' ' :: (clk ++ '\n' :: [])) ' ' hsp hh hhd
    rw [e, hp, hn, parseNext_token _ kw _ _ hkne hkd]
    exact hloopB _ _
  refine ⟨hA, hB, hloopA, ?_⟩
  intro L rest acc hacc hL
  have hnot : ¬ acc.length ≥ pstates_allocated := Nat.not_le.mpr hacc
  rcases hL with hL | hL
  · obtain ⟨e, he, -⟩ := hA
    simp only [readLoop, if_neg hnot, hL, he]
  · obtain ⟨e, he, -⟩ := hB
    simp only [readLoop, if_neg hnot, hL, he]

/-- The lines `07: core 405 mhz` (unit in the wrong case) and `07: core 405`
(no unit) both fail, and the builder skips the first. -/
theorem bad_unit_rejected_witness :
    (∃ e, parse_pstate "07: core 405 mhz\n".toList = .error e ∧ e ≠ .out_of_fuel) ∧
    (∃ e, parse_pstate "07: core 405\n".toList = .error e ∧ e ≠ .out_of_fuel) ∧
    readLoop ["07: core 405 mhz\n".toList, "0f: core 1240 MHz\n".toList] [] =
      readLoop ["0f: core 1240 MHz\n".toList] [] :=
  ⟨(bad_unit_rejected "07".toList kwCore "405".toList "mhz".toList [] '\n'
      (by decide) (by decide) (Or.inl rfl) (by decide) (by decide) (by decide) (by decide)
      (by decide) (by decide) (by decide)).1,
   (bad_unit_rejected "07".toList kwCore "405".toList "mhz".toList [] '\n'
      (by decide) (by decide) (Or.inl rfl) (by decide) (by decide) (by decide) (by decide)
      (by decide) (by decide) (by decide)).2.1,
   (bad_unit_rejected "07".toList kwCore "405".toList "mhz".toList [] '\n'
      (by decide) (by decide) (Or.inl rfl) (by decide) (by decide) (by decide) (by decide)
      (by decide) (by decide) (by decide)).2.2.2 "07: core 405 mhz\n".toList
      ["0f: core 1240 MHz\n".toList] [] (by decide) (Or.inl (by rfl))⟩

/-! ### The listing -/

theorem ite_ne_of_ne {c : Prop} [Decidable c] {a b x : Char} (ha : a ≠ x) (hb : b ≠ x) :
    (if c then a else b) ≠ x := by
  split_ifs <;> assumption

theorem digitChar_ne_newline (k : Nat) : Nat.digitChar k ≠ '\n' := by
  unfold Nat.digitChar
  repeat (refine ite_ne_of_ne (by decide) ?_)
  decide

theorem toDigitsCore_no_newline (base : Nat) (fuel : Nat) :
    ∀ (n : Nat) (ds : List Char), (∀ c ∈ ds, c ≠ '\n') →
      ∀ c ∈ Nat.toDigitsCore base fuel n ds, c ≠ '\n' := by
  induction fuel with
  | zero => intro n ds hds c hc; simpa [Nat.toDigitsCore] using hds c (by simpa [Nat.toDigitsCore] using hc)
  | succ f ih =>
    intro n ds hds c hc
    have hds' : ∀ c ∈ Nat.digitChar (n % base) :: ds, c ≠ '\n' := by
      intro c hc
      rcases List.mem_cons.mp hc with rfl | hc
      · exact digitChar_ne_newline _
      · exact hds c hc
    simp only [Nat.toDigitsCore] at hc
    split_ifs at hc
    · exact hds' c hc
    · exact ih _ _ hds' c hc

theorem toDigits_no_newline (base n : Nat) : ∀ c ∈ Nat.toDigits base n, c ≠ '\n' :=
  toDigitsCore_no_newline base _ n [] (by simp)

theorem toDigitsCore_length (base : Nat) (fuel : Nat) :
    ∀ (n : Nat) (ds : List Char), 0 < fuel →
      ds.length + 1 ≤ (Nat.toDigitsCore base fuel n ds).length := by
  induction fuel with
  | zero => intro n ds h; exact absurd h (by decide)
  | succ f ih =>
    intro n ds _
    simp only [Nat.toDigitsCore]
    split_ifs with h0
    · simp
    · cases f with
      | zero => simp [Nat.toDigitsCore]
      | succ g =>
        have := ih (n / base) (Nat.digitChar (n % base) :: ds) (Nat.succ_pos g)
        simp only [List.length_cons] at this
        omega

theorem toDigits16_length (n : Nat) (hn : 16 ≤ n) : 2 ≤ (Nat.toDigits 16 n).length := by
  unfold Nat.toDigits
  simp only [Nat.toDigitsCore]
  have h0 : ¬ (n / 16 = 0) := by omega
  simp only [h0, if_false]
  have := toDigitsCore_length 16 n (n / 16) [Nat.digitChar (n % 16)] (by omega)
  simpa using this

set_option maxRecDepth 100000 in
theorem fmt02x_small : ∀ v, v < 256 → fmt02x v = lower_hex2 v := by
  decide

theorem fmt02x_eq_specHex (v : Nat) : fmt02x v = specHex v := by
  unfold specHex
  split_ifs with h
  · exact fmt02x_small v h
  · have := toDigits16_length v (by omega)
    unfold fmt02x
    simp only
    have h2 : 2 - (Nat.toDigits 16 v).length = 0 := by omega
    rw [h2]
    simp

theorem fmtZu_eq_repr (n : Nat) : fmtZu n = (Nat.repr n).toList := by
  rfl

theorem fmtD_eq_repr (z : Int) : fmtD z = (Int.repr z).toList := by
  cases z with
  | ofNat m =>
    have h : ¬ ((Int.ofNat m) < 0) := by simp
    simp only [fmtD, h, if_false]
    rfl
  | negSucc m =>
    have h : (Int.negSucc m) < 0 := Int.negSucc_lt_zero m
    simp only [fmtD, h, if_true, Int.repr]
    rfl

theorem suffix_chain (p1 p2 p3 : Prop) [Decidable p1] [Decidable p2] [Decidable p3]
    (A B C : List Char) :
    (if p1 then A ++ ['\n'] else if p2 then B ++ ['\n'] else if p3 then C ++ ['\n']
      else [] ++ ['\n']) =
      ((([(decide p1, A), (decide p2, B), (decide p3, C)].find? (fun r => r.1)).map
        (fun r => r.2)).getD []) ++ ['\n'] ∧
    (((([(decide p1, A), (decide p2, B), (decide p3, C)].find? (fun r => r.1)).map
        (fun r => r.2)).getD []) = A ∨
     ((([(decide p1, A), (decide p2, B), (decide p3, C)].find? (fun r => r.1)).map
        (fun r => r.2)).getD []) = B ∨
     ((([(decide p1, A), (decide p2, B), (decide p3, C)].find? (fun r => r.1)).map
        (fun r => r.2)).getD []) = C ∨
     ((([(decide p1, A), (decide p2, B), (decide p3, C)].find? (fun r => r.1)).map
        (fun r => r.2)).getD []) = []) := by
  by_cases h1 : p1 <;> by_cases h2 : p2 <;> by_cases h3 : p3 <;>
    simp [h1, h2, h3, List.find?]

theorem specSuffix_cases (t : PStates) (i : Nat) :
    (if i = t.perf then puts " (performance profile)".toList
     else if i = t.enrgy then puts " (save-energy profile)".toList
     else if (entry t.pstates i).pstate = 0xAC then puts " (DON'T USE!)".toList
     else puts []) = specSuffix t i ++ ['\n'] ∧
    (specSuffix t i = " (performance profile)".toList ∨
     specSuffix t i = " (save-energy profile)".toList ∨
     specSuffix t i = " (DON'T USE!)".toList ∨ specSuffix t i = []) :=
  suffix_chain (i = t.perf) (i = t.enrgy) ((entry t.pstates i).pstate = 0xAC) _ _ _

theorem printEntry_eq_specLine (t : PStates) (i : Nat) :
    printEntry t i = specLine specHex t i ++ ['\n'] := by
  unfold printEntry specLine
  rw [fmt02x_eq_specHex, fmtZu_eq_repr, fmtD_eq_repr, fmtD_eq_repr, fmtD_eq_repr,
    (specSuffix_cases t i).1]
  simp only [List.append_assoc]

theorem foldl_append_eq_flatten (f : Nat → List Char) (l : List Nat) (init : List Char) :
    l.foldl (fun out i => out ++ f i) init = init ++ (l.map f).flatten := by
  induction l generalizing init with
  | nil => simp
  | cons x xs ih => simp [ih, List.append_assoc]

theorem getlines_line (l rest : List Char) (hl : ∀ c ∈ l, c ≠ '\n') :
    getlines (l ++ '\n' :: rest) = (l ++ ['\n']) :: getlines rest := by
  induction l with
  | nil => simp [getlines]
  | cons x xs ih =>
    have hx : x ≠ '\n' := hl x (List.mem_cons_self _ _)
    have ih' := ih (fun c hc => hl c (List.mem_cons_of_mem _ hc))
    rw [List.cons_append, getlines, if_neg hx, ih']
    rfl

theorem getlines_flatten (ls : List (List Char)) (hls : ∀ l ∈ ls, ∀ c ∈ l, c ≠ '\n') :
    getlines ((ls.map (fun l => l ++ ['\n'])).flatten) = ls.map (fun l => l ++ ['\n']) := by
  induction ls with
  | nil => simp [getlines]
  | cons l ls ih =>
    have ih' := ih (fun l' hl' => hls l' (List.mem_cons_of_mem _ hl'))
    simp only [List.map_cons, List.flatten_cons, List.append_assoc, List.singleton_append]
    rw [getlines_line l _ (hls l (List.mem_cons_self _ _)), ih']

theorem no_newline_append {l1 l2 : List Char} (h1 : ∀ c ∈ l1, c ≠ '\n')
    (h2 : ∀ c ∈ l2, c ≠ '\n') : ∀ c ∈ l1 ++ l2, c ≠ '\n' := by
  intro c hc
  rcases List.mem_append.mp hc with h | h
  · exact h1 c h
  · exact h2 c h

theorem repr_no_newline (z : Int) : ∀ c ∈ (Int.repr z).toList, c ≠ '\n' := by
  rw [← fmtD_eq_repr]
  unfold fmtD
  split_ifs
  · intro c hc
    rcases List.mem_cons.mp hc with rfl | hc
    · decide
    · exact toDigits_no_newline _ _ c hc
  · exact toDigits_no_newline _ _

theorem specHex_no_newline (v : Nat) : ∀ c ∈ specHex v, c ≠ '\n' := by
  unfold specHex lower_hex2
  split_ifs
  · intro c hc
    simp only [List.mem_cons, List.mem_singleton, List.not_mem_nil, or_false] at hc
    rcases hc with rfl | rfl <;> exact digitChar_ne_newline _
  · exact toDigits_no_newline _ _

theorem specSuffix_no_newline (t : PStates) (i : Nat) : ∀ c ∈ specSuffix t i, c ≠ '\n' := by
  rcases (specSuffix_cases t i).2 with h | h | h | h <;> rw [h] <;> decide

theorem specLine_no_newline (t : PStates) (i : Nat) :
    ∀ c ∈ specLine specHex t i, c ≠ '\n' := by
  unfold specLine
  repeat' apply no_newline_append
  all_goals first
    | decide
    | exact repr_no_newline _
    | exact specHex_no_newline _
    | exact specSuffix_no_newline _ _
    | exact toDigits_no_newline _ _

/-- C14, as stated, fails: a pstate of three hexadecimal digits is listed with
three digits, `val:100`, not with two. -/
theorem wide_pstate_listing :
    read_pstates blobWidePstate = .ok ⟨[⟨0x100, 405, 405, 810⟩], 0, 0⟩ ∧
    print_pstates ⟨[⟨0x100, 405, 405, 810⟩], 0, 0⟩ =
      ("[id:0] val:100, core-clock 405-405 MHz, memory-clock 810 MHz" ++
       " (performance profile)\n").toList ∧
    print_pstates ⟨[⟨0x100, 405, 405, 810⟩], 0, 0⟩ ≠
      specLine lower_hex2 ⟨[⟨0x100, 405, 405, 810⟩], 0, 0⟩ 0 ++ ['\n'] := by
  refine ⟨by rfl, by rfl, by decide⟩

/-- C14, amended: for every table, `print_pstates` emits exactly one line per
entry, and line `i` is
`[id:<i>] val:<xx>, core-clock <min>-<max> MHz, memory-clock <mem> MHz<suffix>`
with the clocks in signed decimal, `<xx>` the lowercase hexadecimal of the
pstate padded to two digits (exactly two digits for a pstate below 256), and
the suffix chosen by precedence: performance profile, save-energy profile,
DON'T USE!, or none. -/
theorem listing_lines (t : PStates) :
    print_pstates t =
      ((List.range t.pstates_len).map (fun i => specLine specHex t i ++ ['\n'])).flatten ∧
    getlines (print_pstates t) =
      (List.range t.pstates_len).map (fun i => specLine specHex t i ++ ['\n']) ∧
    (getlines (print_pstates t)).length = t.pstates_len ∧
    (∀ i, (entry t.pstates i).pstate < 256 →
      specLine specHex t i = specLine lower_hex2 t i) := by
  have h1 : print_pstates t =
      ((List.range t.pstates_len).map (fun i => specLine specHex t i ++ ['\n'])).flatten := by
    unfold print_pstates
    rw [foldl_append_eq_flatten]
    simp only [List.nil_append]
    congr 1
    apply List.map_congr_left
    intro i _
    exact printEntry_eq_specLine t i
  have h2 : getlines (print_pstates t) =
      (List.range t.pstates_len).map (fun i => specLine specHex t i ++ ['\n']) := by
    rw [h1]
    have := getlines_flatten ((List.range t.pstates_len).map (fun i => specLine specHex t i))
      (by
        intro l hl
        obtain ⟨i, -, rfl⟩ := List.mem_map.mp hl
        exact specLine_no_newline t i)
    simpa [List.map_map, Function.comp] using this
  refine ⟨h1, h2, ?_, ?_⟩
  · rw [h2]; simp
  · intro i hi
    unfold specLine specHex
    simp only [hi, if_true]

/-- C14, amended, on the table 07, ac of the third scenario: two lines, the
first marked as performance profile and the second with ` (DON'T USE!)`. -/
theorem listing_lines_witness :
    getlines (print_pstates (classify [⟨0x07, 405, 405, 810⟩, ⟨0xAC, 1240, 1240, 810⟩])) =
      ["[id:0] val:07, core-clock 405-405 MHz, memory-clock 810 MHz (performance profile)\n".toList,
       "[id:1] val:ac, core-clock 1240-1240 MHz, memory-clock 810 MHz (DON'T USE!)\n".toList] :=
  (listing_lines (classify [⟨0x07, 405, 405, 810⟩, ⟨0xAC, 1240, 1240, 810⟩])).2.1

/-- C19 at a failing input: the line `09: core 900 mhz` has a unit token that
is not `MHz` or `GHz` and `parse_pstate` fails on it, but as the ninth line of
a file, after eight records, it is not simply skipped: the growth branch runs
before the parse, sets `pstates_len` to 12 and shrinks the buffer, so the table
does not keep its eight entries.  As the second line of a file the same line
is skipped. -/
theorem ninth_bad_unit_line_overruns :
    parse_pstate lineBadUnit = .error .unknown_clock_unit ∧
    (readLoop (getlines blobEightStates) []).toOption.map List.length = some 8 ∧
    read_pstates (blobEightStates ++ lineBadUnit) = .error (.buffer_overrun 12) ∧
    readLoop (getlines ("01: core 100 MHz memory 810 MHz\n".toList ++ lineBadUnit)) [] =
      .ok [⟨0x01, 100, 100, 810⟩] := by
  refine ⟨by rfl, by rfl, by rfl, by rfl⟩

end Noupstate
